import Mathlib

set_option autoImplicit false
set_option maxRecDepth 100000

/-!
Verification of the charm-cli document-processing core: the document object
model shared by the commands, the degradation synthesizer of
`bin/commands/transcribe.mjs`, the submit/poll/fetch control flow of
`transcribeSingleFile` and its batch driver, and the multi-source merge
engine of `commandMergeTranscriptions` in `bin/commands/list.mjs`
(`merge-transcriptions.mjs`).

JSON metadata values are embedded as an inductive `JVal`; JavaScript's
`JSON.stringify` (used by the merge engine to compare metadata values) is
embedded as `stringify`.  Network interactions are embedded as oracles:
the merge engine takes a per-page response oracle and returns the trace of
page indices it requested together with the outcome; the transcribe flow
takes a `TranscribeEnv` of submit/poll/fetch responses.
-/

namespace Charm

/-- A JSON value, as stored in a `.doc.json` metadata mapping.  JavaScript
numbers are modelled as integers (all numeric metadata in the repository is
integral). -/
inductive JVal where
  | null : JVal
  | bool : Bool → JVal
  | num : Int → JVal
  | str : String → JVal
  | arr : List JVal → JVal
  | obj : List (String × JVal) → JVal

/-- Lower-case hexadecimal digit, as produced by `JSON.stringify` escapes
and by Node's `digest('hex')`. -/
def hexDigit (n : Nat) : Char :=
  if n < 10 then Char.ofNat (48 + n) else Char.ofNat (87 + n)

/-- A decimal digit character. -/
def digitCh (d : Nat) : Char := Char.ofNat (48 + d)

/-- Little-endian decimal digits of `n`, with explicit fuel so the
definition is structural (the fuel `n` itself always suffices). -/
def natDigitsRev (fuel : Nat) (n : Nat) : List Nat :=
  match fuel with
  | 0 => []
  | fuel' + 1 => if n = 0 then [] else n % 10 :: natDigitsRev fuel' (n / 10)

/-- Decimal rendering of a natural number. -/
def natRepr (n : Nat) : String :=
  if n = 0 then "0" else String.mk ((natDigitsRev n n).map digitCh).reverse

/-- Decimal rendering of an integer, as `JSON.stringify` renders integral
JavaScript numbers. -/
def intRepr (i : Int) : String :=
  if i < 0 then "-" ++ natRepr i.natAbs else natRepr i.natAbs

/-- `JSON.stringify` escaping of one character inside a string literal. -/
def escChar (c : Char) : String :=
  if c = Char.ofNat 34 then "\\\""
  else if c = Char.ofNat 92 then "\\\\"
  else if c = Char.ofNat 8 then "\\b"
  else if c = Char.ofNat 9 then "\\t"
  else if c = Char.ofNat 10 then "\\n"
  else if c = Char.ofNat 12 then "\\f"
  else if c = Char.ofNat 13 then "\\r"
  else if c.toNat < 32 then
    "\\u00" ++ String.singleton (hexDigit (c.toNat / 16)) ++
      String.singleton (hexDigit (c.toNat % 16))
  else String.singleton c

/-- `JSON.stringify` escaping of a whole string body. -/
def escape (s : String) : String :=
  String.join (s.data.map escChar)

/-- Numeric value of a hexadecimal digit character (lower-case letters). -/
def hexVal (c : Char) : Option Nat :=
  if 48 ≤ c.toNat ∧ c.toNat ≤ 57 then some (c.toNat - 48)
  else if 97 ≤ c.toNat ∧ c.toNat ≤ 102 then some (c.toNat - 87)
  else none

/-- Inverse of `escChar` on one escape unit: reads one (possibly escaped)
character off the front of an escaped string body.  Used to prove that
`JSON.stringify` is injective, i.e. that its equality test is deep
structural equality. -/
def unescOne : List Char → Option (Char × List Char)
  | [] => none
  | c :: rest =>
    if c = Char.ofNat 92 then
      match rest with
      | [] => none
      | e :: rest2 =>
        if e = Char.ofNat 117 then
          match rest2 with
          | z1 :: z2 :: h1 :: h2 :: rest3 =>
            if z1 = Char.ofNat 48 ∧ z2 = Char.ofNat 48 then
              match hexVal h1, hexVal h2 with
              | some v1, some v2 => some (Char.ofNat (16 * v1 + v2), rest3)
              | _, _ => none
            else none
          | _ => none
        else if e = Char.ofNat 34 then some (Char.ofNat 34, rest2)
        else if e = Char.ofNat 92 then some (Char.ofNat 92, rest2)
        else if e = Char.ofNat 98 then some (Char.ofNat 8, rest2)
        else if e = Char.ofNat 116 then some (Char.ofNat 9, rest2)
        else if e = Char.ofNat 110 then some (Char.ofNat 10, rest2)
        else if e = Char.ofNat 102 then some (Char.ofNat 12, rest2)
        else if e = Char.ofNat 114 then some (Char.ofNat 13, rest2)
        else none
    else some (c, rest)

mutual

/-- `JSON.stringify(v)` for a JSON value `v`. -/
def stringify : JVal → String
  | .null => "null"
  | .bool b => cond b "true" "false"
  | .num n => intRepr n
  | .str s => "\"" ++ escape s ++ "\""
  | .arr vs => "[" ++ stringifyArr vs ++ "]"
  | .obj kvs => "\x7b" ++ stringifyObj kvs ++ "\x7d"

/-- Comma-separated rendering of the elements of a JSON array. -/
def stringifyArr : List JVal → String
  | [] => ""
  | [v] => stringify v
  | v :: v' :: vs => stringify v ++ "," ++ stringifyArr (v' :: vs)

/-- Comma-separated rendering of the entries of a JSON object. -/
def stringifyObj : List (String × JVal) → String
  | [] => ""
  | [(k, v)] => "\"" ++ escape k ++ "\":" ++ stringify v
  | (k, v) :: e :: kvs =>
      "\"" ++ escape k ++ "\":" ++ stringify v ++ "," ++ stringifyObj (e :: kvs)

end

/-- `JSON.stringify(v)` where `v` may be JavaScript `undefined` (a missing
object property): `JSON.stringify(undefined)` is `undefined`, modelled as
`none`. -/
def jstr (v : Option JVal) : Option String := v.map stringify

/-- A character list that does not begin with a decimal digit — the shape
of every continuation that can follow a rendered number inside a JSON
text (used to prove `stringify` injective). -/
def noDigitHead : List Char → Prop
  | [] => True
  | c :: _ => ¬ (48 ≤ c.toNat ∧ c.toNat ≤ 57)

/-- JavaScript `v || d` for a possibly-absent string `v` (both `undefined`
and the empty string are falsy). -/
def jsOrS (v : Option String) (d : String) : String :=
  match v with
  | none => d
  | some s => if s = "" then d else s

/-- A JSON object: the open string-keyed metadata mapping of a document or
chunk, in property insertion order. -/
abbrev Obj := List (String × JVal)

/-- A JavaScript object under construction, whose properties may hold
`undefined` (`none`).  `JSON.stringify` drops such properties when the
object is serialized to a file. -/
abbrev MObj := List (String × Option JVal)

/-- JavaScript property assignment `o[k] = v`: overwrite in place if the
key exists, otherwise append at the end. -/
def objSet (o : MObj) (k : String) (v : Option JVal) : MObj :=
  match o with
  | [] => [(k, v)]
  | (k', v') :: rest => if k' = k then (k, v) :: rest else (k', v') :: objSet rest k v

/-- `JSON.stringify` view of a constructed object: properties holding
`undefined` are dropped. -/
def serializeMeta (o : MObj) : Obj :=
  o.filterMap (fun p => p.2.map (fun v => (p.1, v)))

/-- Add a key to a JavaScript `Set` (insertion order preserved, duplicates
ignored). -/
def addKey (ks : List String) (k : String) : List String :=
  if k ∈ ks then ks else ks ++ [k]

/-- The merge engine's key collection pass
(`docs.forEach(d => { if (d.metadata) Object.keys(d.metadata).forEach(k => allDocKeys.add(k)); })`):
every key of every present source metadata object, in first-seen order. -/
def collectKeys (metas : List (Option Obj)) : List String :=
  metas.foldl
    (fun ks m =>
      match m with
      | none => ks
      | some o => (o.map Prod.fst).foldl addKey ks)
    []

/-- `d.metadata ? d.metadata[k] : undefined`. -/
def metaVal (m : Option Obj) (k : String) : Option JVal :=
  m.bind (fun o => List.lookup k o)

/-- The merge engine's agreement test for one key:
`values.every(v => JSON.stringify(v) === JSON.stringify(values[0]))`. -/
def valsAgree (vals : List (Option JVal)) : Bool :=
  vals.all (fun v => jstr v == jstr (vals.headD none))

/-- JavaScript `Array.prototype.join(sep)`. -/
def joinSep (sep : String) : List String → String
  | [] => ""
  | [a] => a
  | a :: b :: rest => a ++ sep ++ joinSep sep (b :: rest)

/-- One entry of a `_conflicts` list: `` `ALT: ${JSON.stringify(x)}` ``
(a template literal renders `undefined` as the text `undefined`). -/
def altEntry (v : Option JVal) : String :=
  "ALT: " ++ ((jstr v).getD "undefined")

/-- The merge engine's conflict list for one key:
`values.slice(1).filter(x => JSON.stringify(x) !== JSON.stringify(values[0])).map(x => ...).join(' | ')`. -/
def altList (vals : List (Option JVal)) : String :=
  joinSep " | "
    (((vals.drop 1).filter (fun x => jstr x != jstr (vals.headD none))).map altEntry)

/-- The merge engine's per-key metadata reconciliation step (the body of
`for (const k of allDocKeys)` in `commandMergeTranscriptions`, used
verbatim at document level and at page level). -/
def reconStep (metas : List (Option Obj)) (acc : MObj) (k : String) : MObj :=
  let vals := metas.map (fun m => metaVal m k)
  if valsAgree vals then
    objSet acc k (vals.headD none)
  else
    let acc' := objSet acc k (vals.headD none)
    let alt := altList vals
    if alt = "" then acc' else objSet acc' (k ++ "_conflicts") (some (.str alt))

/-- The merge engine's metadata reconciliation over all keys of all
sources. -/
def reconcileMeta (metas : List (Option Obj)) : MObj :=
  (collectKeys metas).foldl (reconStep metas) []

/-- The `values` array the merge engine builds for one key:
`docs.map(d => (d.metadata ? d.metadata[k] : undefined))`. -/
def valsOf (metas : List (Option Obj)) (k : String) : List (Option JVal) :=
  metas.map (fun m => metaVal m k)

/-- One addressable sub-unit (typically one page) of a document.  Fields
absent from a given JSON artifact are `none` / defaulted. -/
structure Chunk where
  id : String := ""
  parent : String := ""
  start : Option Nat := none
  length : Option Nat := none
  content : String := ""
  metadata : Option Obj := none
  annotations : Option Obj := none
deriving Inhabited

/-- A `.doc.json` document: id, optional top-level content, open metadata
mapping, optional pointer to the authoritative chunk group, and named
chunk groups. -/
structure Document where
  id : Option String := none
  content : Option String := none
  metadata : Option Obj := none
  content_chunk_group : Option String := none
  chunks : Option (List (String × List Chunk)) := none
deriving Inhabited

/-- `d.chunks?.[chunkGroupName] || []`: the chunk array a document exposes
under a group name (empty when the document has no such group). -/
def chunksOf (d : Document) (g : String) : List Chunk :=
  (d.chunks.bind (fun m => List.lookup g m)).getD []

/-- Response of the text-generation endpoint to one per-page reconciliation
request of the merge engine. -/
inductive PageResp where
  /-- HTTP success; the body's `messages` array as (role, content) pairs
  (missing `messages` is the empty list, after `resultJson.messages || []`). -/
  | ok (messages : List (String × String))
  /-- non-success HTTP response (`!resp.ok`). -/
  | httpErr (status : Nat) (body : String)
  /-- transport or parse exception. -/
  | exn (msg : String)

/-- Ways `commandMergeTranscriptions` terminates with a non-zero exit
(`process.exit(1)`) before writing any output. -/
inductive MergeError where
  /-- fewer than two input documents. -/
  | tooFewInputs
  /-- `Mismatch in number of chunks for group ... among input docs` —
  the spec's `AlignmentError`. -/
  | alignment
  /-- merging page `pageIndex` answered with a non-success HTTP status. -/
  | pageHttp (pageIndex : Nat) (status : Nat) (body : String)
  /-- `No assistant message returned for page #...`. -/
  | noAssistantMsg (pageIndex : Nat)
  /-- exception while merging page `pageIndex`. -/
  | pageExn (pageIndex : Nat) (msg : String)
deriving DecidableEq

/-- Whether a page-reconciliation response makes the merge engine abort
(non-success HTTP, exception, or a body with no assistant message). -/
def pageRespFails (r : PageResp) : Bool :=
  match r with
  | .ok msgs => (msgs.filter (fun m => m.1 == "assistant")).isEmpty
  | .httpErr _ _ => true
  | .exn _ => true

/-- The merged chunk the engine constructs for page `i` from a successful
reconciliation response.  The alignment precondition guarantees
`i < (chunksOf d g).length` for every input document `d`, so the `getD`
default is never reached. -/
def mergedChunk (docs : List Document) (g mergedId : String)
    (msgs : List (String × String)) (i : Nat) : Chunk :=
  let amsgs := msgs.filter (fun m => m.1 == "assistant")
  let pageChunks := docs.map (fun d => (chunksOf d g).getD i default)
  { id := mergedId ++ "/" ++ g ++ "@" ++ toString i,
    parent := mergedId,
    content := joinSep "\n" (amsgs.map Prod.snd),
    metadata := some (serializeMeta (reconcileMeta (pageChunks.map Chunk.metadata))) }

/-- One iteration of the merge engine's page loop: issue the
reconciliation request for page `i` and either abort or construct the
merged chunk. -/
def mergePage (docs : List Document) (g mergedId : String)
    (resp : PageResp) (i : Nat) : Except MergeError Chunk :=
  match resp with
  | .httpErr status body => .error (.pageHttp i status body)
  | .exn m => .error (.pageExn i m)
  | .ok msgs =>
    if (msgs.filter (fun m => m.1 == "assistant")).isEmpty then
      .error (.noAssistantMsg i)
    else
      .ok (mergedChunk docs g mergedId msgs i)

/-- The merge engine's page loop over the given page indices.  Returns the
trace of page indices for which a reconciliation request was issued (in
the order the requests went out) together with the outcome: the merged
chunks, or the error that aborted at the first failing page. -/
def mergePagesLoop (docs : List Document) (g mergedId : String)
    (oracle : Nat → PageResp) :
    List Nat → List Nat × Except MergeError (List Chunk)
  | [] => ([], .ok [])
  | i :: rest =>
    match mergePage docs g mergedId (oracle i) i with
    | .error e => ([i], .error e)
    | .ok c =>
      let r := mergePagesLoop docs g mergedId oracle rest
      (i :: r.1, r.2.map (fun cs => c :: cs))

/-- The chunk count of the first input document under the selected group
(`chunkArrays[0].length` in the source). -/
def mergePageCount (docs : List Document) (g : String) : Nat :=
  (chunksOf (docs.headD default) g).length

/-- `commandMergeTranscriptions`, from loading the parsed input documents
onward.  `oracle i` is the text-generation endpoint's response to the
reconciliation request for page `i`.  Returns the trace of page indices
requested over the network, and either the document written to the output
file or the error that caused the non-zero exit (in which case nothing is
written: the single `fs.writeFileSync` comes after the page loop). -/
def mergeTranscriptions (docs : List Document) (g : String)
    (oracle : Nat → PageResp) : List Nat × Except MergeError Document :=
  if docs.length < 2 then ([], .error .tooFewInputs)
  else
    let chunkArrays := docs.map (fun d => chunksOf d g)
    let pageCount := (chunkArrays.headD []).length
    if (chunkArrays.drop 1).any (fun a => a.length != pageCount) then
      ([], .error .alignment)
    else
      let mergedId := "merged-" ++ jsOrS (docs.headD default).id "doc"
      let mergedMeta := serializeMeta (reconcileMeta (docs.map Document.metadata))
      let r := mergePagesLoop docs g mergedId oracle (List.range pageCount)
      (r.1, r.2.map (fun cs =>
        { id := some mergedId,
          metadata := some mergedMeta,
          content_chunk_group := some g,
          chunks := some [(g, cs)] }))

/-!
SHA-256 (FIPS 180-4), as computed by
`crypto.createHash('sha256').update(fileBuffer).digest('hex')` in the
degradation synthesizer.  Words are naturals reduced mod `2 ^ 32`; bytes
are naturals below 256.
-/

/-- Truncate to a 32-bit word. -/
def w32 (n : Nat) : Nat := n % 4294967296

/-- 32-bit modular addition. -/
def wadd (a b : Nat) : Nat := w32 (a + b)

/-- 32-bit bitwise complement. -/
def wnot (a : Nat) : Nat := 4294967295 - w32 a

/-- Rotate a 32-bit word right by `n` bits. -/
def rotr (n a : Nat) : Nat := w32 (a >>> n ||| a <<< (32 - n))

/-- The SHA-256 `Ch` function. -/
def shaCh (x y z : Nat) : Nat := (x &&& y) ^^^ (wnot x &&& z)

/-- The SHA-256 `Maj` function. -/
def shaMaj (x y z : Nat) : Nat := (x &&& y) ^^^ (x &&& z) ^^^ (y &&& z)

/-- The SHA-256 `Σ₀` function. -/
def bigSigma0 (x : Nat) : Nat := rotr 2 x ^^^ rotr 13 x ^^^ rotr 22 x

/-- The SHA-256 `Σ₁` function. -/
def bigSigma1 (x : Nat) : Nat := rotr 6 x ^^^ rotr 11 x ^^^ rotr 25 x

/-- The SHA-256 `σ₀` function. -/
def smallSigma0 (x : Nat) : Nat := rotr 7 x ^^^ rotr 18 x ^^^ (x >>> 3)

/-- The SHA-256 `σ₁` function. -/
def smallSigma1 (x : Nat) : Nat := rotr 17 x ^^^ rotr 19 x ^^^ (x >>> 10)

/-- The 64 SHA-256 round constants (FIPS 180-4 §4.2.2, in decimal). -/
def shaK : List Nat :=
  [1116352408, 1899447441, 3049323471, 3921009573, 961987163, 1508970993,
   2453635748, 2870763221, 3624381080, 310598401, 607225278, 1426881987,
   1925078388, 2162078206, 2614888103, 3248222580, 3835390401, 4022224774,
   264347078, 604807628, 770255983, 1249150122, 1555081692, 1996064986,
   2554220882, 2821834349, 2952996808, 3210313671, 3336571891, 3584528711,
   113926993, 338241895, 666307205, 773529912, 1294757372, 1396182291,
   1695183700, 1986661051, 2177026350, 2456956037, 2730485921, 2820302411,
   3259730800, 3345764771, 3516065817, 3600352804, 4094571909, 275423344,
   430227734, 506948616, 659060556, 883997877, 958139571, 1322822218,
   1537002063, 1747873779, 1955562222, 2024104815, 2227730452, 2361852424,
   2428436474, 2756734187, 3204031479, 3329325298]

/-- The SHA-256 initial hash value (FIPS 180-4 §5.3.3, in decimal). -/
def shaH0 : List Nat :=
  [1779033703, 3144134277, 1013904242, 2773480762,
   1359893119, 2600822924, 528734635, 1541459225]

/-- Append the next word of the message schedule
(`W_t = σ₁(W_(t-2)) + W_(t-7) + σ₀(W_(t-15)) + W_(t-16)`). -/
def extendW (w : List Nat) : List Nat :=
  let t := w.length
  w ++ [wadd (wadd (smallSigma1 (w.getD (t - 2) 0)) (w.getD (t - 7) 0))
             (wadd (smallSigma0 (w.getD (t - 15) 0)) (w.getD (t - 16) 0))]

/-- Extend a 16-word block to the full 64-word message schedule. -/
def messageSchedule (w16 : List Nat) : List Nat :=
  (List.range 48).foldl (fun w _ => extendW w) w16

/-- One SHA-256 compression round on the working state `[a,b,c,d,e,f,g,h]`. -/
def shaRound (st : List Nat) (k w : Nat) : List Nat :=
  let a := st.getD 0 0
  let b := st.getD 1 0
  let c := st.getD 2 0
  let d := st.getD 3 0
  let e := st.getD 4 0
  let f := st.getD 5 0
  let g := st.getD 6 0
  let h := st.getD 7 0
  let t1 := wadd h (wadd (bigSigma1 e) (wadd (shaCh e f g) (wadd k w)))
  let t2 := wadd (bigSigma0 a) (shaMaj a b c)
  [wadd t1 t2, a, b, c, wadd d t1, e, f, g]

/-- Compress one 16-word block into the running hash value. -/
def compressBlock (h : List Nat) (block : List Nat) : List Nat :=
  let w := messageSchedule block
  let st := (shaK.zip w).foldl (fun st p => shaRound st p.1 p.2) h
  (h.zip st).map (fun p => wadd p.1 p.2)

/-- `k` bytes of `n` in big-endian order. -/
def bytesBE : Nat → Nat → List Nat
  | 0, _ => []
  | k + 1, n => bytesBE k (n / 256) ++ [n % 256]

/-- SHA-256 padding: `0x80`, zeros to 56 mod 64, then the bit length as
eight big-endian bytes. -/
def padMessage (msg : List Nat) : List Nat :=
  msg ++ [128] ++ List.replicate ((119 - msg.length % 64) % 64) 0 ++
    bytesBE 8 (msg.length * 8)

/-- Group bytes into big-endian 32-bit words. -/
def toWordsBE : List Nat → List Nat
  | b0 :: b1 :: b2 :: b3 :: rest =>
      (((b0 * 256 + b1) * 256 + b2) * 256 + b3) :: toWordsBE rest
  | _ => []

/-- Group a word list into 16-word blocks (a padded message is always a
whole number of blocks). -/
def toBlocks : List Nat → List (List Nat)
  | w0 :: w1 :: w2 :: w3 :: w4 :: w5 :: w6 :: w7 ::
    w8 :: w9 :: w10 :: w11 :: w12 :: w13 :: w14 :: w15 :: rest =>
      [w0, w1, w2, w3, w4, w5, w6, w7, w8, w9, w10, w11, w12, w13, w14, w15]
        :: toBlocks rest
  | _ => []

/-- The eight 32-bit words of the SHA-256 digest of a byte sequence. -/
def sha256Words (msg : List Nat) : List Nat :=
  (toBlocks (toWordsBE (padMessage msg))).foldl compressBlock shaH0

/-- A 32-bit word as eight lower-case hex digits. -/
def toHexWord (w : Nat) : String :=
  String.mk ((List.range 8).map (fun i => hexDigit (w / 16 ^ (7 - i) % 16)))

/-- `crypto.createHash('sha256').update(bytes).digest('hex')`. -/
def sha256hex (msg : List Nat) : String :=
  String.join ((sha256Words msg).map toHexWord)

/-!
The degradation synthesizer of `bin/commands/transcribe.mjs`: the four
`createPartialResult*` constructors.  `fileBytes` is the input file's
byte content (`fs.readFileSync(inputFile)`), `model` is
`globalFlags.model`, and `now` is the wall-clock reading rendered by
`new Date().toISOString()`.
-/

/-- `path.basename(p)`: the last path component. -/
def basenameOf (p : String) : String :=
  (p.splitOn "/").getLastD p

/-- `path.extname(p)`: from the last dot of the basename to the end, empty
for dotless names and for a leading-dot-only name like `.bashrc`. -/
def extnameOf (p : String) : String :=
  match (basenameOf p).splitOn "." with
  | [] => ""
  | [_] => ""
  | ["", _] => ""
  | parts => "." ++ parts.getLastD ""

/-- The synthesizer's `mimetype` metadata value:
`path.extname(inputFile) === '.pdf' ? 'application/pdf' : 'application/vnd...document'`. -/
def failureMime (inputFile : String) : String :=
  if extnameOf inputFile = ".pdf" then "application/pdf"
  else "application/vnd.openxmlformats-officedocument.wordprocessingml.document"

/-- Assemble a synthesized placeholder document.  All four constructors
build exactly this shape; they differ only in the Markdown failure notice
`errorContent`, the `transcription_error` descriptor, and the two
`error_type`/`error_message` chunk metadata entries. -/
def mkFailureDoc (inputFile : String) (fileBytes : List Nat)
    (model now errorContent : String)
    (errType errMsg failurePoint annDescription : String) : Document :=
  let fileHash := sha256hex fileBytes
  { id := some fileHash,
    content := some errorContent,
    metadata := some
      [("mimetype", .str (failureMime inputFile)),
       ("document_sha256", .str fileHash),
       ("size_bytes", .num fileBytes.length),
       ("originating_filename", .str (basenameOf inputFile)),
       ("transcription_status", .str "failed"),
       ("transcription_error", .obj
         [("error_type", .str errType),
          ("error_message", .str errMsg),
          ("timestamp", .str now),
          ("model_used", .str model),
          ("failure_point", .str failurePoint)])],
    chunks := some [("pages",
      [{ id := fileHash ++ "/pages@0",
         parent := fileHash,
         start := some 0,
         length := some errorContent.length,
         content := errorContent,
         metadata := some
           [("page_number", .num 1),
            ("text_extraction_method", .str "error_placeholder"),
            ("extraction_confidence", .num 0),
            ("model_name", .str model),
            ("isFirstPage", .bool true),
            ("originating_filename", .str (basenameOf inputFile)),
            ("originating_file_sha256", .str fileHash),
            ("transcription_failed", .bool true),
            ("error_type", .str errType),
            ("error_message", .str errMsg)],
         annotations := some [("description", .str annDescription)] }])] }

/-- `createPartialResultFromError(statusRes, inputFile, globalFlags)`:
the placeholder for a job that polled to `status === 'error'`.
`errType`/`errMsg` are `statusRes.error_type`/`statusRes.error`. -/
def createPartialResultFromError (errType errMsg : Option String)
    (inputFile : String) (fileBytes : List Nat) (model now : String) : Document :=
  mkFailureDoc inputFile fileBytes model now
    ("<!-- TRANSCRIPTION FAILURE -->\n<!-- This page failed to transcribe due to an error -->\n\n# Transcription Failed\n\n**Error Type:** "
      ++ jsOrS errType "Unknown"
      ++ "\n**Error Message:** " ++ jsOrS errMsg "No error message provided"
      ++ "\n**Timestamp:** " ++ now ++ "\n**Model:** " ++ model
      ++ "\n\n---\n\n*This content was generated because the --continue-on-failure flag was used and the transcription process encountered an error.*")
    (jsOrS errType "job_error") (jsOrS errMsg "Unknown error") "job_processing"
    "This page contains a transcription failure notice because the original transcription process failed."

/-- `createPartialResultFromHttpError(httpStatus, errorBody, inputFile, globalFlags)`:
the placeholder for a result fetch answered with a non-success HTTP
status. -/
def createPartialResultFromHttpError (httpStatus : Nat) (errorBody : String)
    (inputFile : String) (fileBytes : List Nat) (model now : String) : Document :=
  mkFailureDoc inputFile fileBytes model now
    ("<!-- TRANSCRIPTION FAILURE -->\n<!-- Result retrieval failed with HTTP error -->\n\n# Transcription Result Retrieval Failed\n\n**HTTP Status:** "
      ++ toString httpStatus
      ++ "\n**Error Response:** " ++ errorBody
      ++ "\n**Timestamp:** " ++ now ++ "\n**Model:** " ++ model
      ++ "\n\n---\n\n*This content was generated because the --continue-on-failure flag was used and the result could not be retrieved from the server.*")
    "http_error" ("HTTP " ++ toString httpStatus ++ ": " ++ errorBody) "result_retrieval"
    "This page contains a transcription failure notice because the result could not be retrieved from the server."

/-- `createPartialResultFromTimeout(inputFile, globalFlags)`: the
placeholder for a result fetch that answered HTTP 202 (still
processing). -/
def createPartialResultFromTimeout (inputFile : String) (fileBytes : List Nat)
    (model now : String) : Document :=
  mkFailureDoc inputFile fileBytes model now
    ("<!-- TRANSCRIPTION FAILURE -->\n<!-- Transcription process timed out -->\n\n# Transcription Timed Out\n\n**Error Type:** Processing Timeout\n**Timestamp:** "
      ++ now ++ "\n**Model:** " ++ model
      ++ "\n\n---\n\n*This content was generated because the --continue-on-failure flag was used and the transcription process did not complete within the expected timeframe.*")
    "timeout" "Transcription process timed out" "processing_timeout"
    "This page contains a transcription failure notice because the transcription process timed out."

/-- `createPartialResultFromException(error, inputFile, globalFlags)`: the
placeholder for an exception during the result fetch.  `errMsg` is
`error.message`. -/
def createPartialResultFromException (errMsg : Option String)
    (inputFile : String) (fileBytes : List Nat) (model now : String) : Document :=
  mkFailureDoc inputFile fileBytes model now
    ("<!-- TRANSCRIPTION FAILURE -->\n<!-- Transcription failed with exception -->\n\n# Transcription Exception\n\n**Error Type:** Exception\n**Error Message:** "
      ++ jsOrS errMsg "Unknown exception"
      ++ "\n**Timestamp:** " ++ now ++ "\n**Model:** " ++ model
      ++ "\n\n---\n\n*This content was generated because the --continue-on-failure flag was used and the transcription process encountered an exception.*")
    "exception" (jsOrS errMsg "Unknown exception") "exception_during_processing"
    "This page contains a transcription failure notice because the transcription process encountered an exception."

/-!
The submit/poll/fetch control flow of `transcribeSingleFile` and the batch
driver in `commandTranscribe`.  The remote service is an oracle
(`TranscribeEnv`): one submission response, a list of poll responses
consumed in order, and one result-fetch response.
-/

/-- Response to the job submission `POST`. -/
inductive SubmitResp where
  /-- HTTP success with a `job_id` in the body. -/
  | ok (jobId : String)
  /-- non-success HTTP response. -/
  | httpErr (status : Nat) (body : String)
  /-- HTTP success but no `job_id` in the body. -/
  | noJobId
  /-- transport or parse exception. -/
  | exn (msg : String)

/-- The parsed JSON body of a successful poll response. -/
structure PollStatus where
  status : String
  error : Option String := none
  error_type : Option String := none

/-- Response to one status poll `GET`. -/
inductive PollResp where
  /-- HTTP success with a parsed status body. -/
  | ok (st : PollStatus)
  /-- non-success HTTP response. -/
  | httpErr (status : Nat) (body : String)
  /-- transport or parse exception. -/
  | exn (msg : String)

/-- Response to the result fetch `GET`. -/
inductive FetchResp where
  /-- HTTP success (not 202) with the final document in the body. -/
  | ok (doc : Document)
  /-- non-success HTTP response (`!resp.ok`, hence a status other than 202). -/
  | httpErr (status : Nat) (body : String)
  /-- HTTP 202: the result endpoint still reports processing. -/
  | accepted
  /-- transport or parse exception. -/
  | exn (msg : String)

/-- The remote service's behavior for one file's transcription job. -/
structure TranscribeEnv where
  submit : SubmitResp
  polls : List PollResp
  fetchResult : FetchResp

/-- How one `transcribeSingleFile` call ends. -/
inductive FileOutcome where
  /-- the document written to the output path (a fetched result or a
  synthesized placeholder). -/
  | wrote (d : Document)
  /-- a thrown `Error` with this message: in single-file mode it reaches
  `main().catch` and the process exits non-zero; in batch mode it is
  caught by the per-file handler. -/
  | threw (msg : String)
  /-- the poll loop never observed a terminal status within the supplied
  responses (the real loop would still be polling). -/
  | stillPolling

/-- The submission phase (`POST` + `job_id` extraction); every failure is
thrown regardless of `--continue-on-failure`. -/
def submitPhase : SubmitResp → Except String String
  | .ok jobId => .ok jobId
  | .httpErr status body =>
      .error ("Failed to start document conversion: HTTP " ++ toString status
        ++ " => " ++ body)
  | .noJobId => .error "Failed to start document conversion: No job_id returned by the server."
  | .exn m => .error ("Failed to start document conversion: " ++ m)

/-- What the poll loop decided. -/
inductive PollOutcome where
  /-- `status === 'complete'`: break and fetch the result. -/
  | fetchNeeded
  /-- `status === 'error'` under `--continue-on-failure`: `finalDoc` was
  set to the synthesized placeholder and the fetch is skipped. -/
  | degraded (d : Document)
  /-- a thrown `Error` with this message. -/
  | threw (msg : String)
  /-- the supplied responses ran out without a terminal status. -/
  | stillPolling

/-- The poll loop of `transcribeSingleFile`: repeated status `GET`s until a
terminal status; polling transport failures are thrown in both modes. -/
def pollLoop (cont : Bool) (inputFile : String) (fileBytes : List Nat)
    (model now : String) : List PollResp → PollOutcome
  | [] => .stillPolling
  | .httpErr status body :: _ =>
      .threw ("Polling job status failed: Polling => HTTP " ++ toString status
        ++ " => " ++ body)
  | .exn m :: _ => .threw ("Polling job status failed: " ++ m)
  | .ok st :: rest =>
    if st.status = "error" then
      if cont then
        .degraded (createPartialResultFromError st.error_type st.error
          inputFile fileBytes model now)
      else .threw ("Job error: " ++ st.error.getD "undefined")
    else if st.status = "complete" then .fetchNeeded
    else pollLoop cont inputFile fileBytes model now rest

/-- The result-fetch phase.  In strict mode the branch-local throws (HTTP
error, 202) are caught by the surrounding `catch`, which re-throws them
wrapped in `Failed to fetch final doc object: ...`; with
`--continue-on-failure` each failure is routed to the matching
degradation constructor. -/
def fetchPhase (cont : Bool) (inputFile : String) (fileBytes : List Nat)
    (model now : String) : FetchResp → Except String Document
  | .ok d => .ok d
  | .httpErr status body =>
    if cont then
      .ok (createPartialResultFromHttpError status body inputFile fileBytes model now)
    else
      .error ("Failed to fetch final doc object: Could not retrieve final => HTTP "
        ++ toString status ++ " => " ++ body)
  | .accepted =>
    if cont then .ok (createPartialResultFromTimeout inputFile fileBytes model now)
    else .error "Failed to fetch final doc object: Still processing, got 202."
  | .exn m =>
    if cont then
      .ok (createPartialResultFromException (some m) inputFile fileBytes model now)
    else .error ("Failed to fetch final doc object: " ++ m)

/-- `transcribeSingleFile(inputFile, options, globalFlags)` under the
response environment `env`.  The single `fs.writeFileSync` of the output
artifact happens only on the `wrote` outcome, after every phase
succeeded or degraded. -/
def transcribeSingleFile (cont : Bool) (inputFile : String)
    (fileBytes : List Nat) (model now : String) (env : TranscribeEnv) :
    FileOutcome :=
  match submitPhase env.submit with
  | .error m => .threw m
  | .ok _ =>
    match pollLoop cont inputFile fileBytes model now env.polls with
    | .stillPolling => .stillPolling
    | .threw m => .threw m
    | .degraded d => .wrote d
    | .fetchNeeded =>
      match fetchPhase cont inputFile fileBytes model now env.fetchResult with
      | .error m => .threw m
      | .ok d => .wrote d

/-- One batch entry: an input file, its byte content, and the remote
service's behavior for it. -/
structure BatchFile where
  inputFile : String
  fileBytes : List Nat
  env : TranscribeEnv

/-- Result of a batch run: the per-file outcomes in input order, and
whether the loop reached the final `Batch processing complete` line
(exiting zero) rather than aborting with `process.exit(1)`. -/
structure BatchResult where
  outcomes : List FileOutcome
  completed : Bool

/-- The batch loop of `commandTranscribe`: files strictly in order, one
completing (or degrading, or throwing into the per-file `catch`) before
the next begins.  A throw aborts the batch only when
`--continue-on-failure` is off. -/
def batchLoop (cont : Bool) (model now : String) : List BatchFile → BatchResult
  | [] => { outcomes := [], completed := true }
  | f :: rest =>
    match transcribeSingleFile cont f.inputFile f.fileBytes model now f.env with
    | .stillPolling => { outcomes := [.stillPolling], completed := false }
    | .threw m =>
      if cont then
        let r := batchLoop cont model now rest
        { outcomes := .threw m :: r.outcomes, completed := r.completed }
      else { outcomes := [.threw m], completed := false }
    | .wrote d =>
      let r := batchLoop cont model now rest
      { outcomes := .wrote d :: r.outcomes, completed := r.completed }

/-- A poll response that keeps the loop going: HTTP success with a status
that is neither `error` nor `complete`. -/
def isProgressPoll : PollResp → Bool
  | .ok st => st.status != "error" && st.status != "complete"
  | _ => false

/-!
Theorems.
-/

/-- Sanity anchor: the model's SHA-256 of the empty byte sequence is the
FIPS 180-4 test value. -/
theorem sha256hex_empty_vector :
    sha256hex [] = "e3b0c44298fc1c149afbf4c8996fb92427ae41e4649b934ca495991b7852b855" := by
  decide

/-- Sanity anchor: the model's SHA-256 of `"abc"` is the FIPS 180-4 test
value. -/
theorem sha256hex_abc_vector :
    sha256hex [97, 98, 99] = "ba7816bf8f01cfea414140de5dae2223b00361a396177a9cb410ff61f20015ad" := by
  decide

/-- C3: every document produced by the degradation synthesizer — for a job
error, an HTTP error at result fetch, a timeout/202, or an exception — has
both its `id` and its `metadata.document_sha256` equal to the SHA-256 hash
of the input file's bytes.  (`sha256hex` is a function of the bytes alone,
so repeated invocations on identical bytes produce the identical hash.) -/
theorem degradation_id_is_sha256_of_bytes
    (errType errMsg exnMsg : Option String) (inputFile : String)
    (fileBytes : List Nat) (model now : String)
    (httpStatus : Nat) (errorBody : String) :
    ((createPartialResultFromError errType errMsg inputFile fileBytes model now).id
        = some (sha256hex fileBytes)
      ∧ metaVal (createPartialResultFromError errType errMsg inputFile fileBytes model now).metadata
          "document_sha256" = some (.str (sha256hex fileBytes)))
    ∧ ((createPartialResultFromHttpError httpStatus errorBody inputFile fileBytes model now).id
        = some (sha256hex fileBytes)
      ∧ metaVal (createPartialResultFromHttpError httpStatus errorBody inputFile fileBytes model now).metadata
          "document_sha256" = some (.str (sha256hex fileBytes)))
    ∧ ((createPartialResultFromTimeout inputFile fileBytes model now).id
        = some (sha256hex fileBytes)
      ∧ metaVal (createPartialResultFromTimeout inputFile fileBytes model now).metadata
          "document_sha256" = some (.str (sha256hex fileBytes)))
    ∧ ((createPartialResultFromException exnMsg inputFile fileBytes model now).id
        = some (sha256hex fileBytes)
      ∧ metaVal (createPartialResultFromException exnMsg inputFile fileBytes model now).metadata
          "document_sha256" = some (.str (sha256hex fileBytes))) :=
  ⟨⟨rfl, rfl⟩, ⟨rfl, rfl⟩, ⟨rfl, rfl⟩, ⟨rfl, rfl⟩⟩

/-- C4: every document produced by the degradation synthesizer (all four
failure constructors) contains exactly one chunk group, named `pages`,
with exactly one chunk; that chunk's `id` and `parent` are populated from
the file hash and its `metadata` is present; and the document metadata
carries `transcription_status = "failed"`. -/
theorem degradation_structural_uniformity
    (errType errMsg exnMsg : Option String) (inputFile : String)
    (fileBytes : List Nat) (model now : String)
    (httpStatus : Nat) (errorBody : String) :
    (∃ c : Chunk,
      (createPartialResultFromError errType errMsg inputFile fileBytes model now).chunks
          = some [("pages", [c])]
        ∧ c.id = sha256hex fileBytes ++ "/pages@0"
        ∧ c.parent = sha256hex fileBytes
        ∧ c.metadata.isSome = true
        ∧ metaVal (createPartialResultFromError errType errMsg inputFile fileBytes model now).metadata
            "transcription_status" = some (.str "failed"))
    ∧ (∃ c : Chunk,
      (createPartialResultFromHttpError httpStatus errorBody inputFile fileBytes model now).chunks
          = some [("pages", [c])]
        ∧ c.id = sha256hex fileBytes ++ "/pages@0"
        ∧ c.parent = sha256hex fileBytes
        ∧ c.metadata.isSome = true
        ∧ metaVal (createPartialResultFromHttpError httpStatus errorBody inputFile fileBytes model now).metadata
            "transcription_status" = some (.str "failed"))
    ∧ (∃ c : Chunk,
      (createPartialResultFromTimeout inputFile fileBytes model now).chunks
          = some [("pages", [c])]
        ∧ c.id = sha256hex fileBytes ++ "/pages@0"
        ∧ c.parent = sha256hex fileBytes
        ∧ c.metadata.isSome = true
        ∧ metaVal (createPartialResultFromTimeout inputFile fileBytes model now).metadata
            "transcription_status" = some (.str "failed"))
    ∧ (∃ c : Chunk,
      (createPartialResultFromException exnMsg inputFile fileBytes model now).chunks
          = some [("pages", [c])]
        ∧ c.id = sha256hex fileBytes ++ "/pages@0"
        ∧ c.parent = sha256hex fileBytes
        ∧ c.metadata.isSome = true
        ∧ metaVal (createPartialResultFromException exnMsg inputFile fileBytes model now).metadata
            "transcription_status" = some (.str "failed")) :=
  ⟨⟨_, rfl, rfl, rfl, rfl, rfl⟩, ⟨_, rfl, rfl, rfl, rfl, rfl⟩,
   ⟨_, rfl, rfl, rfl, rfl, rfl⟩, ⟨_, rfl, rfl, rfl, rfl, rfl⟩⟩

/-- The first chunk array the merge engine extracts is the first
document's. -/
theorem chunkArrays_headD (docs : List Document) (g : String) :
    (docs.map (fun d => chunksOf d g)).headD [] = chunksOf (docs.headD default) g := by
  cases docs <;> rfl

/-- A failing page response makes `mergePage` abort. -/
theorem mergePage_error_of_fails (docs : List Document) (g mergedId : String)
    (r : PageResp) (i : Nat) (h : pageRespFails r = true) :
    ∃ e, mergePage docs g mergedId r i = .error e := by
  cases r with
  | ok msgs =>
    simp only [pageRespFails] at h
    exact ⟨.noAssistantMsg i, by simp [mergePage, h]⟩
  | httpErr status body => exact ⟨.pageHttp i status body, rfl⟩
  | exn m => exact ⟨.pageExn i m, rfl⟩

/-- A successful `mergePage` means the page response was not a failing
one. -/
theorem mergePage_ok_not_fails (docs : List Document) (g mergedId : String)
    (r : PageResp) (i : Nat) (c : Chunk)
    (h : mergePage docs g mergedId r i = .ok c) : pageRespFails r = false := by
  cases r with
  | ok msgs =>
    simp only [mergePage] at h
    simp only [pageRespFails]
    by_contra hne
    simp only [Bool.not_eq_false] at hne
    rw [if_pos hne] at h
    exact Except.noConfusion h
  | httpErr status body => exact Except.noConfusion h
  | exn m => exact Except.noConfusion h

/-- The trace of page indices the loop requested is a prefix of the page
indices it was given. -/
theorem mergePagesLoop_calls_prefix (docs : List Document) (g mergedId : String)
    (oracle : Nat → PageResp) (idxs : List Nat) :
    (mergePagesLoop docs g mergedId oracle idxs).1 <+: idxs := by
  induction idxs with
  | nil => exact List.prefix_refl _
  | cons i rest ih =>
    simp only [mergePagesLoop]
    cases h : mergePage docs g mergedId (oracle i) i with
    | error e => exact ⟨rest, rfl⟩
    | ok c => exact (List.prefix_cons_inj i).mpr ih

/-- When the loop succeeds it requested exactly the pages it was given,
in order. -/
theorem mergePagesLoop_ok_calls (docs : List Document) (g mergedId : String)
    (oracle : Nat → PageResp) (idxs : List Nat) (cs : List Chunk)
    (h : (mergePagesLoop docs g mergedId oracle idxs).2 = .ok cs) :
    (mergePagesLoop docs g mergedId oracle idxs).1 = idxs := by
  induction idxs generalizing cs with
  | nil => rfl
  | cons i rest ih =>
    simp only [mergePagesLoop] at h ⊢
    cases hp : mergePage docs g mergedId (oracle i) i with
    | error e => rw [hp] at h; exact Except.noConfusion h
    | ok c =>
      rw [hp] at h
      simp only at h ⊢
      cases hr : (mergePagesLoop docs g mergedId oracle rest).2 with
      | error e => rw [hr] at h; exact Except.noConfusion h
      | ok cs' => rw [ih cs' hr]

/-- When the loop succeeds, no page response among the requested pages was
a failing one. -/
theorem mergePagesLoop_ok_no_fail (docs : List Document) (g mergedId : String)
    (oracle : Nat → PageResp) (idxs : List Nat) (cs : List Chunk)
    (h : (mergePagesLoop docs g mergedId oracle idxs).2 = .ok cs) :
    ∀ i ∈ idxs, pageRespFails (oracle i) = false := by
  induction idxs generalizing cs with
  | nil => intro i hi; exact absurd hi (List.not_mem_nil i)
  | cons j rest ih =>
    intro i hi
    simp only [mergePagesLoop] at h
    cases hp : mergePage docs g mergedId (oracle j) j with
    | error e => rw [hp] at h; exact Except.noConfusion h
    | ok c =>
      rw [hp] at h
      simp only at h
      cases hr : (mergePagesLoop docs g mergedId oracle rest).2 with
      | error e => rw [hr] at h; exact Except.noConfusion h
      | ok cs' =>
        rcases List.mem_cons.mp hi with rfl | hi'
        · exact mergePage_ok_not_fails docs g mergedId (oracle i) i c hp
        · exact ih cs' hr i hi'

/-- A failing page response among the requested pages aborts the loop. -/
theorem mergePagesLoop_error_of_fail (docs : List Document) (g mergedId : String)
    (oracle : Nat → PageResp) (idxs : List Nat)
    (h : ∃ i ∈ idxs, pageRespFails (oracle i) = true) :
    ∃ e, (mergePagesLoop docs g mergedId oracle idxs).2 = .error e := by
  induction idxs with
  | nil => obtain ⟨i, hi, _⟩ := h; exact absurd hi (List.not_mem_nil i)
  | cons j rest ih =>
    simp only [mergePagesLoop]
    cases hp : mergePage docs g mergedId (oracle j) j with
    | error e => exact ⟨e, rfl⟩
    | ok c =>
      obtain ⟨i, hi, hfail⟩ := h
      rcases List.mem_cons.mp hi with rfl | hi'
      · rw [mergePage_ok_not_fails docs g mergedId (oracle i) i c hp] at hfail
        exact Bool.noConfusion hfail
      · obtain ⟨e, he⟩ := ih ⟨i, hi', hfail⟩
        refine ⟨e, ?_⟩
        simp only [he]
        rfl

/-- `mergePageCount` unfolded. -/
theorem mergePageCount_def (docs : List Document) (g : String) :
    mergePageCount docs g = (chunksOf (docs.headD default) g).length := rfl

/-- With fewer than two input documents the merge exits before doing
anything. -/
theorem mergeTranscriptions_tooFew (docs : List Document) (g : String)
    (oracle : Nat → PageResp) (h : docs.length < 2) :
    mergeTranscriptions docs g oracle = ([], .error .tooFewInputs) := by
  unfold mergeTranscriptions
  rw [if_pos h]

/-- With misaligned chunk counts the merge exits with the alignment error
before anything else. -/
theorem mergeTranscriptions_misaligned (docs : List Document) (g : String)
    (oracle : Nat → PageResp) (h2 : ¬ docs.length < 2)
    (halign : ((docs.map (fun d => chunksOf d g)).drop 1).any
        (fun a => a.length != mergePageCount docs g) = true) :
    mergeTranscriptions docs g oracle = ([], .error .alignment) := by
  unfold mergeTranscriptions
  rw [if_neg h2]
  simp only [chunkArrays_headD, ← mergePageCount_def]
  rw [if_pos halign]

/-- The merge engine's main branch: alignment holds, so it reconciles
document metadata and runs the page loop over `range pageCount`. -/
theorem mergeTranscriptions_main (docs : List Document) (g : String)
    (oracle : Nat → PageResp) (h2 : ¬ docs.length < 2)
    (halign : ((docs.map (fun d => chunksOf d g)).drop 1).any
        (fun a => a.length != mergePageCount docs g) = false) :
    mergeTranscriptions docs g oracle =
      ((mergePagesLoop docs g ("merged-" ++ jsOrS (docs.headD default).id "doc")
          oracle (List.range (mergePageCount docs g))).1,
       (mergePagesLoop docs g ("merged-" ++ jsOrS (docs.headD default).id "doc")
          oracle (List.range (mergePageCount docs g))).2.map (fun cs =>
         { id := some ("merged-" ++ jsOrS (docs.headD default).id "doc"),
           content := none,
           metadata := some (serializeMeta (reconcileMeta (docs.map Document.metadata))),
           content_chunk_group := some g,
           chunks := some [(g, cs)] })) := by
  unfold mergeTranscriptions
  rw [if_neg h2]
  simp only [chunkArrays_headD, ← mergePageCount_def]
  rw [if_neg (by rw [halign]; simp)]

/-- C1: with at least two input documents, if any document's chunk count
under the selected chunk group differs from the first document's chunk
count, `merge-transcriptions` fails with the alignment error before any
network call is issued (empty request trace) and writes no output
document. -/
theorem merge_alignment_fail_fast (docs : List Document) (g : String)
    (oracle : Nat → PageResp) (h2 : 2 ≤ docs.length)
    (hmis : ∃ d ∈ docs, (chunksOf d g).length ≠ mergePageCount docs g) :
    mergeTranscriptions docs g oracle = ([], .error .alignment) := by
  obtain ⟨d, hd, hne⟩ := hmis
  cases docs with
  | nil => exact absurd hd (List.not_mem_nil d)
  | cons d0 tl =>
    rcases List.mem_cons.mp hd with rfl | hd'
    · exact absurd rfl hne
    · refine mergeTranscriptions_misaligned _ _ _ (by omega) ?_
      simp only [List.map_cons, List.drop_succ_cons, List.drop_zero]
      exact List.any_eq_true.mpr
        ⟨chunksOf d g, List.mem_map_of_mem _ hd', bne_iff_ne.mpr hne⟩

/-- C1 witness: three documents with page counts 3, 3, 4 fail with the
alignment error and an empty network trace. -/
theorem merge_alignment_fail_fast_witness :
    mergeTranscriptions
      [{ chunks := some [("pages", List.replicate 3 default)] },
       { chunks := some [("pages", List.replicate 3 default)] },
       { chunks := some [("pages", List.replicate 4 default)] }]
      "pages" (fun _ => .exn "no network") = ([], .error .alignment) :=
  merge_alignment_fail_fast _ _ _ (by decide)
    ⟨{ chunks := some [("pages", List.replicate 4 default)] },
     by simp, by decide⟩

/-- C10: when every input document lacks the selected chunk group (or has
an empty chunk array there), the merge succeeds: it issues zero
reconciliation requests and writes a merged document whose selected chunk
group is the empty list and whose `content_chunk_group` names that
group. -/
theorem merge_all_empty_groups (docs : List Document) (g : String)
    (oracle : Nat → PageResp) (h2 : 2 ≤ docs.length)
    (hall : ∀ d ∈ docs, chunksOf d g = []) :
    mergeTranscriptions docs g oracle =
      ([], .ok
        { id := some ("merged-" ++ jsOrS (docs.headD default).id "doc"),
          content := none,
          metadata := some (serializeMeta (reconcileMeta (docs.map Document.metadata))),
          content_chunk_group := some g,
          chunks := some [(g, [])] }) := by
  have h0 : mergePageCount docs g = 0 := by
    cases docs with
    | nil => simp at h2
    | cons d0 tl =>
      rw [mergePageCount_def]
      simp [hall d0 (List.mem_cons_self d0 tl)]
  have halign : ((docs.map (fun d => chunksOf d g)).drop 1).any
      (fun a => a.length != mergePageCount docs g) = false := by
    rw [List.any_eq_false]
    intro a ha
    have ha' : a ∈ docs.map (fun d => chunksOf d g) := List.mem_of_mem_drop ha
    obtain ⟨d, hd, rfl⟩ := List.mem_map.mp ha'
    simp [hall d hd, h0]
  rw [mergeTranscriptions_main docs g oracle (by omega) halign, h0]
  rfl

/-- C8: the trace of per-page reconciliation requests the merge engine
issues is strictly increasing in page index and is an initial segment
`0..m-1` of the page range — no reordering and no skipping; on success it
is exactly `0..k-1`.  (The model issues the requests one at a time: each
loop iteration consumes its oracle response before the next request.) -/
theorem merge_requests_strictly_increasing (docs : List Document) (g : String)
    (oracle : Nat → PageResp) :
    List.Pairwise (· < ·) (mergeTranscriptions docs g oracle).1
    ∧ ∃ m ≤ mergePageCount docs g,
        (mergeTranscriptions docs g oracle).1 = List.range m
        ∧ ∀ d, (mergeTranscriptions docs g oracle).2 = .ok d →
            m = mergePageCount docs g := by
  by_cases hlen : docs.length < 2
  · rw [mergeTranscriptions_tooFew docs g oracle hlen]
    exact ⟨List.Pairwise.nil, 0, Nat.zero_le _, rfl, fun d h => Except.noConfusion h⟩
  · cases halign : ((docs.map (fun d => chunksOf d g)).drop 1).any
        (fun a => a.length != mergePageCount docs g) with
    | true =>
      rw [mergeTranscriptions_misaligned docs g oracle hlen halign]
      exact ⟨List.Pairwise.nil, 0, Nat.zero_le _, rfl, fun d h => Except.noConfusion h⟩
    | false =>
      have hmain := mergeTranscriptions_main docs g oracle hlen halign
      have hp := mergePagesLoop_calls_prefix docs g
        ("merged-" ++ jsOrS (docs.headD default).id "doc") oracle
        (List.range (mergePageCount docs g))
      have hm : (mergePagesLoop docs g
          ("merged-" ++ jsOrS (docs.headD default).id "doc") oracle
          (List.range (mergePageCount docs g))).1.length ≤ mergePageCount docs g :=
        le_trans hp.length_le (le_of_eq (List.length_range _))
      have heq : (mergePagesLoop docs g
          ("merged-" ++ jsOrS (docs.headD default).id "doc") oracle
          (List.range (mergePageCount docs g))).1
          = List.range (mergePagesLoop docs g
              ("merged-" ++ jsOrS (docs.headD default).id "doc") oracle
              (List.range (mergePageCount docs g))).1.length := by
        conv_lhs => rw [List.prefix_iff_eq_take.mp hp]
        rw [List.take_range _ _, min_eq_left hm]
      refine ⟨?_, (mergePagesLoop docs g
          ("merged-" ++ jsOrS (docs.headD default).id "doc") oracle
          (List.range (mergePageCount docs g))).1.length, hm, ?_, ?_⟩
      · simp only [hmain]
        rw [heq]
        exact List.pairwise_lt_range _
      · simp only [hmain]
        exact heq
      · intro d hok
        simp only [hmain] at hok
        cases hloop : (mergePagesLoop docs g
            ("merged-" ++ jsOrS (docs.headD default).id "doc") oracle
            (List.range (mergePageCount docs g))).2 with
        | error e => rw [hloop] at hok; exact Except.noConfusion hok
        | ok cs =>
          rw [mergePagesLoop_ok_calls docs g _ oracle _ cs hloop]
          exact List.length_range _

/-- C8 witness: two aligned two-page documents with an always-successful
oracle are reconciled with the request trace `[0, 1]` (strictly
increasing, in index order). -/
theorem merge_requests_strictly_increasing_witness :
    (mergeTranscriptions
      [{ chunks := some [("pages", List.replicate 2 default)] },
       { chunks := some [("pages", List.replicate 2 default)] }]
      "pages" (fun _ => .ok [("assistant", "merged")])).1 = List.range 2 := by
  obtain ⟨-, m, -, hcalls, himp⟩ := merge_requests_strictly_increasing
    [{ chunks := some [("pages", List.replicate 2 default)] },
     { chunks := some [("pages", List.replicate 2 default)] }]
    "pages" (fun _ => .ok [("assistant", "merged")])
  rw [hcalls, himp _ rfl]
  rfl

/-- C5: a failing per-page reconciliation response (non-success HTTP, a
body with no assistant message, or an exception) at any page index aborts
the whole merge with an error (non-zero exit, nothing written), and
conversely a written merged document means every page index `0..k-1` was
requested and none of the page responses was a failure. -/
theorem merge_page_failure_aborts (docs : List Document) (g : String)
    (oracle : Nat → PageResp) :
    ((∃ i, i < mergePageCount docs g ∧ pageRespFails (oracle i) = true) →
        ∃ e, (mergeTranscriptions docs g oracle).2 = .error e)
    ∧ ∀ d, (mergeTranscriptions docs g oracle).2 = .ok d →
        (mergeTranscriptions docs g oracle).1 = List.range (mergePageCount docs g)
        ∧ ∀ i, i < mergePageCount docs g → pageRespFails (oracle i) = false := by
  by_cases hlen : docs.length < 2
  · rw [mergeTranscriptions_tooFew docs g oracle hlen]
    exact ⟨fun _ => ⟨.tooFewInputs, rfl⟩, fun d h => Except.noConfusion h⟩
  · cases halign : ((docs.map (fun d => chunksOf d g)).drop 1).any
        (fun a => a.length != mergePageCount docs g) with
    | true =>
      rw [mergeTranscriptions_misaligned docs g oracle hlen halign]
      exact ⟨fun _ => ⟨.alignment, rfl⟩, fun d h => Except.noConfusion h⟩
    | false =>
      have hmain := mergeTranscriptions_main docs g oracle hlen halign
      constructor
      · rintro ⟨i, hi, hf⟩
        obtain ⟨e, he⟩ := mergePagesLoop_error_of_fail docs g
          ("merged-" ++ jsOrS (docs.headD default).id "doc") oracle
          (List.range (mergePageCount docs g)) ⟨i, List.mem_range.mpr hi, hf⟩
        refine ⟨e, ?_⟩
        simp only [hmain, he]
        rfl
      · intro d hok
        simp only [hmain] at hok
        cases hloop : (mergePagesLoop docs g
            ("merged-" ++ jsOrS (docs.headD default).id "doc") oracle
            (List.range (mergePageCount docs g))).2 with
        | error e => rw [hloop] at hok; exact Except.noConfusion hok
        | ok cs =>
          constructor
          · simp only [hmain]
            exact mergePagesLoop_ok_calls docs g _ oracle _ cs hloop
          · intro i hi
            exact mergePagesLoop_ok_no_fail docs g _ oracle _ cs hloop i
              (List.mem_range.mpr hi)

/-- C5 witness: two aligned one-page documents whose page-0 reconciliation
response carries no assistant message make the merge abort with an
error. -/
theorem merge_page_failure_aborts_witness :
    ∃ e, (mergeTranscriptions
      [{ chunks := some [("pages", [{ content := "a" }])] },
       { chunks := some [("pages", [{ content := "b" }])] }]
      "pages" (fun _ => .ok [("user", "echo")])).2 = .error e :=
  (merge_page_failure_aborts
    [{ chunks := some [("pages", [{ content := "a" }])] },
     { chunks := some [("pages", [{ content := "b" }])] }]
    "pages" (fun _ => .ok [("user", "echo")])).1
    ⟨0, by decide, by decide⟩

/-- C10 witness: two documents with no chunk groups at all merge to a
document with an empty `pages` group, `content_chunk_group = "pages"`,
and an empty network trace. -/
theorem merge_all_empty_groups_witness :
    mergeTranscriptions [{ id := some "x" }, {}] "pages" (fun _ => .exn "no network")
      = ([], .ok
        { id := some "merged-x",
          content := none,
          metadata := some [],
          content_chunk_group := some "pages",
          chunks := some [("pages", [])] }) :=
  merge_all_empty_groups [{ id := some "x" }, {}] "pages" _ (by decide)
    (by intro d hd; rcases hd with _ | ⟨_, hd⟩
        · rfl
        · rcases hd with _ | ⟨_, hd⟩
          · rfl
          · exact absurd hd (List.not_mem_nil d))

/-- Appending on the right is cancellative for strings. -/
theorem str_append_right_cancel {a b t : String} (h : a ++ t = b ++ t) : a = b := by
  have hd := congrArg String.data h
  rw [String.data_append, String.data_append] at hd
  exact congrArg String.mk (List.append_cancel_right hd)

/-- A key is never its own `_conflicts` sibling. -/
theorem ne_conflicts (k : String) : k ++ "_conflicts" ≠ k := by
  intro h
  have hlen := congrArg String.length h
  rw [String.length_append] at hlen
  rw [show ("_conflicts" : String).length = 10 from rfl] at hlen
  omega

/-- The `_conflicts` sibling map is injective. -/
theorem conflicts_inj {a b : String} (h : a ++ "_conflicts" = b ++ "_conflicts") :
    a = b :=
  str_append_right_cancel h

/-- Association-list lookup at the head key. -/
theorem lookup_cons_self {β : Type} (k : String) (v : β) (l : List (String × β)) :
    List.lookup k ((k, v) :: l) = some v := by
  simp only [List.lookup, beq_self_eq_true]

/-- Association-list lookup past a different head key. -/
theorem lookup_cons_ne {β : Type} {q k : String} (v : β) (l : List (String × β))
    (h : q ≠ k) : List.lookup q ((k, v) :: l) = List.lookup q l := by
  simp only [List.lookup, beq_eq_false_iff_ne.mpr h]

/-- The keys after an `objSet` assignment: unchanged if the key was
present, otherwise the key is appended. -/
theorem keys_objSet (o : MObj) (k : String) (v : Option JVal) :
    (objSet o k v).map Prod.fst
      = if k ∈ o.map Prod.fst then o.map Prod.fst else o.map Prod.fst ++ [k] := by
  induction o with
  | nil => simp [objSet]
  | cons p rest ih =>
    obtain ⟨k', v'⟩ := p
    by_cases hk : k' = k
    · subst hk
      rw [objSet, if_pos rfl]
      simp
    · rw [objSet, if_neg hk]
      simp only [List.map_cons, ih]
      by_cases hmem : k ∈ rest.map Prod.fst
      · rw [if_pos hmem, if_pos (by simp [hmem])]
      · rw [if_neg hmem, if_neg (by simp [hmem, Ne.symm hk]), List.cons_append]

/-- Looking up the key just assigned by `objSet`. -/
theorem lookup_objSet_self (o : MObj) (k : String) (v : Option JVal) :
    List.lookup k (objSet o k v) = some v := by
  induction o with
  | nil => exact lookup_cons_self k v []
  | cons p rest ih =>
    obtain ⟨k', v'⟩ := p
    by_cases h : k' = k
    · subst h
      rw [objSet, if_pos rfl]
      exact lookup_cons_self k' v rest
    · rw [objSet, if_neg h, lookup_cons_ne _ _ (Ne.symm h)]
      exact ih

/-- Looking up any other key after an `objSet` assignment. -/
theorem lookup_objSet_ne (o : MObj) (k q : String) (v : Option JVal)
    (h : q ≠ k) : List.lookup q (objSet o k v) = List.lookup q o := by
  induction o with
  | nil =>
    rw [show objSet [] k v = [(k, v)] from rfl, lookup_cons_ne _ _ h]
  | cons p rest ih =>
    obtain ⟨k', v'⟩ := p
    by_cases hk : k' = k
    · subst hk
      rw [objSet, if_pos rfl]
      by_cases hq : q = k'
      · exact absurd hq h
      · rw [lookup_cons_ne _ _ hq, lookup_cons_ne _ _ hq]
    · rw [objSet, if_neg hk]
      by_cases hq : q = k'
      · subst hq
        rw [lookup_cons_self, lookup_cons_self]
      · rw [lookup_cons_ne _ _ hq, lookup_cons_ne _ _ hq]
        exact ih

/-- `objSet` only ever adds the assigned key. -/
theorem mem_keys_objSet {o : MObj} {k q : String} {v : Option JVal}
    (h : q ∈ (objSet o k v).map Prod.fst) : q ∈ o.map Prod.fst ∨ q = k := by
  rw [keys_objSet] at h
  by_cases hmem : k ∈ o.map Prod.fst
  · rw [if_pos hmem] at h
    exact Or.inl h
  · rw [if_neg hmem] at h
    rcases List.mem_append.mp h with h1 | h1
    · exact Or.inl h1
    · exact Or.inr (List.mem_singleton.mp h1)

/-- `objSet` preserves key distinctness. -/
theorem keys_nodup_objSet {o : MObj} {k : String} {v : Option JVal}
    (h : (o.map Prod.fst).Nodup) : ((objSet o k v).map Prod.fst).Nodup := by
  rw [keys_objSet]
  by_cases hmem : k ∈ o.map Prod.fst
  · rw [if_pos hmem]
    exact h
  · rw [if_neg hmem]
    simp [List.nodup_append, h, hmem]

/-- A key absent from an association list looks up to nothing. -/
theorem lookup_eq_none_of_not_mem {β : Type} (l : List (String × β)) (q : String)
    (h : q ∉ l.map Prod.fst) : List.lookup q l = none := by
  induction l with
  | nil => rfl
  | cons p rest ih =>
    obtain ⟨k', v'⟩ := p
    simp only [List.map_cons, List.mem_cons, not_or] at h
    rw [lookup_cons_ne _ _ h.1]
    exact ih h.2

/-- `serializeMeta` of a dropped (`undefined`) property. -/
theorem serializeMeta_cons_none (k : String) (rest : MObj) :
    serializeMeta ((k, none) :: rest) = serializeMeta rest := rfl

/-- `serializeMeta` of a kept property. -/
theorem serializeMeta_cons_some (k : String) (w : JVal) (rest : MObj) :
    serializeMeta ((k, some w) :: rest) = (k, w) :: serializeMeta rest := rfl

/-- `serializeMeta` only drops keys. -/
theorem mem_keys_serializeMeta {o : MObj} {q : String}
    (h : q ∈ (serializeMeta o).map Prod.fst) : q ∈ o.map Prod.fst := by
  induction o with
  | nil => exact absurd h (List.not_mem_nil q)
  | cons p rest ih =>
    obtain ⟨k', v'⟩ := p
    cases v' with
    | none =>
      rw [serializeMeta_cons_none] at h
      exact List.mem_cons_of_mem _ (ih h)
    | some w =>
      rw [serializeMeta_cons_some, List.map_cons] at h
      rcases List.mem_cons.mp h with h1 | h2
      · exact h1 ▸ List.mem_cons_self _ _
      · exact List.mem_cons_of_mem _ (ih h2)

/-- On an object with distinct keys, looking a key up in the
`JSON.stringify` view is looking it up in the constructed object, with
`undefined` dropped. -/
theorem lookup_serializeMeta (o : MObj) (h : (o.map Prod.fst).Nodup)
    (q : String) :
    List.lookup q (serializeMeta o) = (List.lookup q o).bind id := by
  induction o with
  | nil => rfl
  | cons p rest ih =>
    obtain ⟨k', v'⟩ := p
    simp only [List.map_cons, List.nodup_cons] at h
    cases v' with
    | none =>
      rw [serializeMeta_cons_none]
      by_cases hq : q = k'
      · subst hq
        rw [lookup_cons_self]
        exact lookup_eq_none_of_not_mem _ _ (fun hm => h.1 (mem_keys_serializeMeta hm))
      · rw [lookup_cons_ne _ _ hq]
        exact ih h.2
    | some w =>
      rw [serializeMeta_cons_some]
      by_cases hq : q = k'
      · subst hq
        rw [lookup_cons_self, lookup_cons_self]
        rfl
      · rw [lookup_cons_ne _ _ hq, lookup_cons_ne _ _ hq]
        exact ih h.2

/-- `reconStep` unfolded through `valsOf`. -/
theorem reconStep_def (metas : List (Option Obj)) (acc : MObj) (k : String) :
    reconStep metas acc k
      = if valsAgree (valsOf metas k) then
          objSet acc k ((valsOf metas k).headD none)
        else if altList (valsOf metas k) = "" then
          objSet acc k ((valsOf metas k).headD none)
        else
          objSet (objSet acc k ((valsOf metas k).headD none)) (k ++ "_conflicts")
            (some (.str (altList (valsOf metas k)))) := rfl

/-- After processing key `k`, the merged object holds the first source's
value for `k` (possibly `undefined`). -/
theorem reconStep_lookup_self (metas : List (Option Obj)) (acc : MObj) (k : String) :
    List.lookup k (reconStep metas acc k) = some ((valsOf metas k).headD none) := by
  rw [reconStep_def]
  split_ifs with h1 h2
  · exact lookup_objSet_self acc k _
  · exact lookup_objSet_self acc k _
  · rw [lookup_objSet_ne _ _ _ _ (Ne.symm (ne_conflicts k))]
    exact lookup_objSet_self acc k _

/-- After processing a disagreeing key `k` with a nonempty conflict list,
the merged object holds the conflict string under `k ++ "_conflicts"`. -/
theorem reconStep_lookup_conflicts_of_disagree (metas : List (Option Obj))
    (acc : MObj) (k : String)
    (hdis : valsAgree (valsOf metas k) = false)
    (halt : altList (valsOf metas k) ≠ "") :
    List.lookup (k ++ "_conflicts") (reconStep metas acc k)
      = some (some (.str (altList (valsOf metas k)))) := by
  rw [reconStep_def, if_neg (by rw [hdis]; exact Bool.false_ne_true), if_neg halt]
  exact lookup_objSet_self _ _ _

/-- Processing an agreeing key `k` leaves `k ++ "_conflicts"` alone. -/
theorem reconStep_lookup_conflicts_of_agree (metas : List (Option Obj))
    (acc : MObj) (k : String)
    (hagr : valsAgree (valsOf metas k) = true) :
    List.lookup (k ++ "_conflicts") (reconStep metas acc k)
      = List.lookup (k ++ "_conflicts") acc := by
  rw [reconStep_def, if_pos hagr]
  exact lookup_objSet_ne _ _ _ _ (ne_conflicts k)

/-- Processing key `k` touches only `k` and `k ++ "_conflicts"`. -/
theorem reconStep_frame (metas : List (Option Obj)) (acc : MObj) (k q : String)
    (hq1 : q ≠ k) (hq2 : q ≠ k ++ "_conflicts") :
    List.lookup q (reconStep metas acc k) = List.lookup q acc := by
  rw [reconStep_def]
  split_ifs
  · exact lookup_objSet_ne _ _ _ _ hq1
  · exact lookup_objSet_ne _ _ _ _ hq1
  · rw [lookup_objSet_ne _ _ _ _ hq2]
    exact lookup_objSet_ne _ _ _ _ hq1

/-- `reconStep` preserves key distinctness. -/
theorem keys_nodup_reconStep (metas : List (Option Obj)) (acc : MObj) (k : String)
    (h : (acc.map Prod.fst).Nodup) :
    ((reconStep metas acc k).map Prod.fst).Nodup := by
  rw [reconStep_def]
  split_ifs
  · exact keys_nodup_objSet h
  · exact keys_nodup_objSet h
  · exact keys_nodup_objSet (keys_nodup_objSet h)

/-- Folding `reconStep` over any key list preserves key distinctness. -/
theorem keys_nodup_foldl_reconStep (metas : List (Option Obj)) (K : List String)
    (acc : MObj) (h : (acc.map Prod.fst).Nodup) :
    ((K.foldl (reconStep metas) acc).map Prod.fst).Nodup := by
  induction K generalizing acc with
  | nil => exact h
  | cons k rest ih => exact ih _ (keys_nodup_reconStep metas acc k h)

/-- The reconciled metadata object has distinct keys. -/
theorem keys_nodup_reconcileMeta (metas : List (Option Obj)) :
    ((reconcileMeta metas).map Prod.fst).Nodup :=
  keys_nodup_foldl_reconStep metas _ [] List.nodup_nil

/-- Folding `reconStep` over keys none of which is `q` or has `q` as its
`_conflicts` sibling leaves `q` alone. -/
theorem lookup_foldl_reconStep_frame (metas : List (Option Obj)) (K : List String)
    (acc : MObj) (q : String)
    (h : ∀ k ∈ K, q ≠ k ∧ q ≠ k ++ "_conflicts") :
    List.lookup q (K.foldl (reconStep metas) acc) = List.lookup q acc := by
  induction K generalizing acc with
  | nil => rfl
  | cons k rest ih =>
    have hk := h k (List.mem_cons_self k rest)
    rw [List.foldl_cons, ih _ (fun k' hk' => h k' (List.mem_cons_of_mem k hk'))]
    exact reconStep_frame metas acc k q hk.1 hk.2

/-- Membership in a fold of `addKey`. -/
theorem mem_foldl_addKey_iff (l : List String) (acc : List String) (q : String) :
    q ∈ l.foldl addKey acc ↔ q ∈ acc ∨ q ∈ l := by
  induction l generalizing acc with
  | nil => simp
  | cons a rest ih =>
    rw [List.foldl_cons, ih]
    unfold addKey
    by_cases h : a ∈ acc
    · rw [if_pos h]
      constructor
      · rintro (h1 | h1)
        · exact Or.inl h1
        · exact Or.inr (List.mem_cons_of_mem a h1)
      · rintro (h1 | h1)
        · exact Or.inl h1
        · rcases List.mem_cons.mp h1 with rfl | h2
          · exact Or.inl h
          · exact Or.inr h2
    · rw [if_neg h]
      constructor
      · rintro (h1 | h1)
        · rcases List.mem_append.mp h1 with h2 | h2
          · exact Or.inl h2
          · exact Or.inr (List.mem_cons.mpr (Or.inl (List.mem_singleton.mp h2)))
        · exact Or.inr (List.mem_cons_of_mem a h1)
      · rintro (h1 | h1)
        · exact Or.inl (List.mem_append.mpr (Or.inl h1))
        · rcases List.mem_cons.mp h1 with rfl | h2
          · exact Or.inl (List.mem_append.mpr (Or.inr (List.mem_singleton.mpr rfl)))
          · exact Or.inr h2

/-- `addKey` preserves distinctness. -/
theorem nodup_addKey (ks : List String) (k : String) (h : ks.Nodup) :
    (addKey ks k).Nodup := by
  unfold addKey
  by_cases hm : k ∈ ks
  · rw [if_pos hm]
    exact h
  · rw [if_neg hm]
    simp [List.nodup_append, h, hm]

/-- Folding `addKey` preserves distinctness. -/
theorem nodup_foldl_addKey (l : List String) (acc : List String) (h : acc.Nodup) :
    (l.foldl addKey acc).Nodup := by
  induction l generalizing acc with
  | nil => exact h
  | cons a rest ih => exact ih _ (nodup_addKey acc a h)

/-- The key collection pass never repeats a key. -/
theorem collectKeys_nodup (metas : List (Option Obj)) :
    (collectKeys metas).Nodup := by
  have aux : ∀ (ms : List (Option Obj)) (acc : List String), acc.Nodup →
      (ms.foldl (fun ks m =>
        match m with
        | none => ks
        | some o => (o.map Prod.fst).foldl addKey ks) acc).Nodup := by
    intro ms
    induction ms with
    | nil => exact fun acc h => h
    | cons m rest ih =>
      intro acc h
      cases m with
      | none => exact ih acc h
      | some o => exact ih _ (nodup_foldl_addKey _ acc h)
  exact aux metas [] List.nodup_nil

/-- A key of any present source metadata object is collected. -/
theorem mem_collectKeys_of (metas : List (Option Obj)) (o : Obj) (q : String)
    (hm : some o ∈ metas) (hq : q ∈ o.map Prod.fst) : q ∈ collectKeys metas := by
  have mono : ∀ (ms : List (Option Obj)) (acc : List String), q ∈ acc →
      q ∈ ms.foldl (fun ks m =>
        match m with
        | none => ks
        | some o => (o.map Prod.fst).foldl addKey ks) acc := by
    intro ms
    induction ms with
    | nil => exact fun acc h => h
    | cons m rest ih =>
      intro acc h
      cases m with
      | none => exact ih acc h
      | some o' => exact ih _ ((mem_foldl_addKey_iff _ acc q).mpr (Or.inl h))
  have aux : ∀ (ms : List (Option Obj)) (acc : List String), some o ∈ ms →
      q ∈ ms.foldl (fun ks m =>
        match m with
        | none => ks
        | some o => (o.map Prod.fst).foldl addKey ks) acc := by
    intro ms
    induction ms with
    | nil => intro acc h; exact absurd h (List.not_mem_nil _)
    | cons m rest ih =>
      intro acc h
      rcases List.mem_cons.mp h with heq | hmem
      · subst heq
        exact mono rest _ ((mem_foldl_addKey_iff _ acc q).mpr (Or.inr hq))
      · cases m with
        | none => exact ih acc hmem
        | some o' => exact ih _ hmem
  exact aux metas [] hm

/-- A key that looks up successfully is among the keys. -/
theorem mem_keys_of_lookup {β : Type} {l : List (String × β)} {k : String} {v : β}
    (h : List.lookup k l = some v) : k ∈ l.map Prod.fst := by
  induction l with
  | nil => exact Option.noConfusion h
  | cons p rest ih =>
    obtain ⟨k', v'⟩ := p
    by_cases hk : k = k'
    · subst hk
      exact List.mem_cons_self _ _
    · rw [lookup_cons_ne _ _ hk] at h
      exact List.mem_cons_of_mem _ (ih h)

/-- A join of `ALT:` entries over a nonempty list is never the empty
string (so the engine's `if (altList)` guard passes). -/
theorem joinSep_altEntry_ne_empty (l : List (Option JVal)) (h : l ≠ []) :
    joinSep " | " (l.map altEntry) ≠ "" := by
  obtain ⟨a, t, rfl⟩ := List.exists_cons_of_ne_nil h
  cases t with
  | nil =>
    intro he
    have hlen := congrArg String.length he
    rw [show joinSep " | " ([a].map altEntry) = altEntry a from rfl] at hlen
    rw [altEntry, String.length_append] at hlen
    rw [show ("ALT: " : String).length = 5 from rfl,
      show ("" : String).length = 0 from rfl] at hlen
    omega
  | cons b t' =>
    intro he
    have hlen := congrArg String.length he
    rw [show joinSep " | " ((a :: b :: t').map altEntry)
          = altEntry a ++ " | " ++ joinSep " | " ((b :: t').map altEntry) from rfl] at hlen
    rw [String.length_append, String.length_append, altEntry,
      String.length_append] at hlen
    rw [show ("ALT: " : String).length = 5 from rfl,
      show ("" : String).length = 0 from rfl] at hlen
    omega

/-- The reconciled metadata holds the first source's value under every
collected key `k` that is not the `_conflicts` sibling of another
collected key. -/
theorem reconcileMeta_lookup_self (metas : List (Option Obj)) (k : String)
    (hk : k ∈ collectKeys metas)
    (hnc : ∀ k' ∈ collectKeys metas, k' ++ "_conflicts" ≠ k) :
    List.lookup k (reconcileMeta metas) = some ((valsOf metas k).headD none) := by
  obtain ⟨K1, K2, hsplit⟩ := List.append_of_mem hk
  have hnd := collectKeys_nodup metas
  rw [hsplit, List.nodup_append] at hnd
  obtain ⟨-, hnd2, hdisj⟩ := hnd
  have hkK2 : k ∉ K2 := (List.nodup_cons.mp hnd2).1
  have hsub2 : ∀ x ∈ K2, x ∈ collectKeys metas := fun x hx => by
    rw [hsplit]
    exact List.mem_append.mpr (Or.inr (List.mem_cons_of_mem k hx))
  rw [reconcileMeta, hsplit, List.foldl_append, List.foldl_cons]
  rw [lookup_foldl_reconStep_frame metas K2 _ k (fun k' hk' =>
    ⟨fun he => hkK2 (he ▸ hk'), fun he => (hnc k' (hsub2 k' hk')) he.symm⟩)]
  exact reconStep_lookup_self metas _ k

/-- When the sources disagree on a collected key `k` (and no source
carries the literal key `k ++ "_conflicts"`), the reconciled metadata
records the conflict list under `k ++ "_conflicts"`. -/
theorem reconcileMeta_conflicts_of_disagree (metas : List (Option Obj)) (k : String)
    (hk : k ∈ collectKeys metas)
    (hc : (k ++ "_conflicts") ∉ collectKeys metas)
    (hdis : valsAgree (valsOf metas k) = false)
    (halt : altList (valsOf metas k) ≠ "") :
    List.lookup (k ++ "_conflicts") (reconcileMeta metas)
      = some (some (.str (altList (valsOf metas k)))) := by
  obtain ⟨K1, K2, hsplit⟩ := List.append_of_mem hk
  have hnd := collectKeys_nodup metas
  rw [hsplit, List.nodup_append] at hnd
  obtain ⟨-, hnd2, hdisj⟩ := hnd
  have hkK2 : k ∉ K2 := (List.nodup_cons.mp hnd2).1
  have hsub2 : ∀ x ∈ K2, x ∈ collectKeys metas := fun x hx => by
    rw [hsplit]
    exact List.mem_append.mpr (Or.inr (List.mem_cons_of_mem k hx))
  rw [reconcileMeta, hsplit, List.foldl_append, List.foldl_cons]
  rw [lookup_foldl_reconStep_frame metas K2 _ (k ++ "_conflicts") (fun k' hk' =>
    ⟨fun he => hc (he ▸ hsub2 k' hk'),
     fun he => hkK2 ((conflicts_inj he.symm) ▸ hk')⟩)]
  exact reconStep_lookup_conflicts_of_disagree metas _ k hdis halt

/-- When all sources agree on a collected key `k` (and no source carries
the literal key `k ++ "_conflicts"`), the reconciled metadata has no
`k ++ "_conflicts"` entry. -/
theorem reconcileMeta_conflicts_of_agree (metas : List (Option Obj)) (k : String)
    (hk : k ∈ collectKeys metas)
    (hc : (k ++ "_conflicts") ∉ collectKeys metas)
    (hagr : valsAgree (valsOf metas k) = true) :
    List.lookup (k ++ "_conflicts") (reconcileMeta metas) = none := by
  obtain ⟨K1, K2, hsplit⟩ := List.append_of_mem hk
  have hnd := collectKeys_nodup metas
  rw [hsplit, List.nodup_append] at hnd
  obtain ⟨-, hnd2, hdisj⟩ := hnd
  have hkK2 : k ∉ K2 := (List.nodup_cons.mp hnd2).1
  have hkK1 : k ∉ K1 := fun hmem => hdisj hmem (List.mem_cons_self k K2)
  have hsub1 : ∀ x ∈ K1, x ∈ collectKeys metas := fun x hx => by
    rw [hsplit]
    exact List.mem_append.mpr (Or.inl hx)
  have hsub2 : ∀ x ∈ K2, x ∈ collectKeys metas := fun x hx => by
    rw [hsplit]
    exact List.mem_append.mpr (Or.inr (List.mem_cons_of_mem k hx))
  rw [reconcileMeta, hsplit, List.foldl_append, List.foldl_cons]
  rw [lookup_foldl_reconStep_frame metas K2 _ (k ++ "_conflicts") (fun k' hk' =>
    ⟨fun he => hc (he ▸ hsub2 k' hk'),
     fun he => hkK2 ((conflicts_inj he.symm) ▸ hk')⟩)]
  rw [reconStep_lookup_conflicts_of_agree metas _ k hagr]
  rw [lookup_foldl_reconStep_frame metas K1 [] (k ++ "_conflicts") (fun k' hk' =>
    ⟨fun he => hc (he ▸ hsub1 k' hk'),
     fun he => hkK1 ((conflicts_inj he.symm) ▸ hk')⟩)]
  rfl

/-!
Injectivity of the embedded `JSON.stringify`: its equality test on JSON
values is exactly deep structural equality.
-/

/-- Sanity anchor: the decimal integer rendering. -/
theorem intRepr_anchor : intRepr 0 = "0" ∧ intRepr 123 = "123" ∧ intRepr (-45) = "-45" := by
  refine ⟨rfl, rfl, rfl⟩

/-- The code unit of a digit character. -/
theorem digitCh_toNat (d : Nat) (h : d < 10) : (digitCh d).toNat = 48 + d := by
  interval_cases d <;> decide

/-- Digit characters are in the digit code-unit range. -/
theorem digitCh_isDigit (d : Nat) (h : d < 10) :
    48 ≤ (digitCh d).toNat ∧ (digitCh d).toNat ≤ 57 := by
  rw [digitCh_toNat d h]
  omega

/-- Digit characters determine their digit. -/
theorem digitCh_inj (d1 d2 : Nat) (h1 : d1 < 10) (h2 : d2 < 10)
    (h : digitCh d1 = digitCh d2) : d1 = d2 := by
  have := congrArg Char.toNat h
  rw [digitCh_toNat d1 h1, digitCh_toNat d2 h2] at this
  omega

/-- With sufficient fuel, `natDigitsRev` is `Nat.digits 10`. -/
theorem natDigitsRev_eq (fuel n : Nat) (h : n ≤ fuel) :
    natDigitsRev fuel n = Nat.digits 10 n := by
  induction fuel generalizing n with
  | zero =>
    have : n = 0 := Nat.le_zero.mp h
    subst this
    simp [natDigitsRev]
  | succ fuel' ih =>
    by_cases hn : n = 0
    · subst hn
      simp [natDigitsRev]
    · rw [natDigitsRev, if_neg hn, Nat.digits_def' (by norm_num) (Nat.pos_of_ne_zero hn)]
      rw [ih (n / 10) (by
        have := Nat.div_lt_self (Nat.pos_of_ne_zero hn) (by norm_num : 1 < 10)
        omega)]

/-- Every character of a rendered natural number is a decimal digit. -/
theorem natRepr_chars (n : Nat) :
    ∀ c ∈ (natRepr n).data, 48 ≤ c.toNat ∧ c.toNat ≤ 57 := by
  intro c hc
  rw [natRepr] at hc
  by_cases hn : n = 0
  · rw [if_pos hn] at hc
    rcases List.mem_singleton.mp hc with rfl
    decide
  · rw [if_neg hn] at hc
    rw [show (String.mk ((natDigitsRev n n).map digitCh).reverse).data
          = ((natDigitsRev n n).map digitCh).reverse from rfl] at hc
    rw [natDigitsRev_eq n n le_rfl] at hc
    obtain ⟨d, hd, rfl⟩ := List.mem_map.mp (List.mem_reverse.mp hc)
    exact digitCh_isDigit d (Nat.digits_lt_base (by norm_num) hd)

/-- A rendered natural number is never the empty string. -/
theorem natRepr_ne_nil (n : Nat) : (natRepr n).data ≠ [] := by
  rw [natRepr]
  by_cases hn : n = 0
  · rw [if_pos hn]
    exact List.cons_ne_nil _ _
  · rw [if_neg hn]
    rw [show (String.mk ((natDigitsRev n n).map digitCh).reverse).data
          = ((natDigitsRev n n).map digitCh).reverse from rfl]
    rw [natDigitsRev_eq n n le_rfl]
    simp [Nat.digits_ne_nil_iff_ne_zero.mpr hn]

/-- Mapping `digitCh` over digit lists is injective. -/
theorem map_digitCh_inj (l1 l2 : List Nat)
    (h1 : ∀ x ∈ l1, x < 10) (h2 : ∀ x ∈ l2, x < 10)
    (h : l1.map digitCh = l2.map digitCh) : l1 = l2 := by
  induction l1 generalizing l2 with
  | nil =>
    cases l2 with
    | nil => rfl
    | cons d ds => exact List.noConfusion h
  | cons d1 ds1 ih =>
    cases l2 with
    | nil => exact List.noConfusion h
    | cons d2 ds2 =>
      obtain ⟨hh, ht⟩ := List.cons.injEq .. ▸ h
      rw [digitCh_inj d1 d2 (h1 d1 (List.mem_cons_self _ _)) (h2 d2 (List.mem_cons_self _ _)) hh,
        ih ds2 (fun x hx => h1 x (List.mem_cons_of_mem _ hx))
          (fun x hx => h2 x (List.mem_cons_of_mem _ hx)) ht]

/-- Decimal rendering of naturals is injective. -/
theorem natRepr_inj (n1 n2 : Nat) (h : natRepr n1 = natRepr n2) : n1 = n2 := by
  have hd := congrArg String.data h
  rw [natRepr, natRepr] at hd
  by_cases h1 : n1 = 0 <;> by_cases h2 : n2 = 0
  · omega
  · rw [if_pos h1, if_neg h2,
      show (String.mk ((natDigitsRev n2 n2).map digitCh).reverse).data
        = ((natDigitsRev n2 n2).map digitCh).reverse from rfl,
      natDigitsRev_eq n2 n2 le_rfl] at hd
    have hmap : (Nat.digits 10 n2).map digitCh = ['0'] := by
      rw [← List.reverse_reverse (List.map digitCh (Nat.digits 10 n2)), ← hd]
      rfl
    cases hdig : Nat.digits 10 n2 with
    | nil => rw [hdig] at hmap; exact List.noConfusion hmap
    | cons d ds =>
      rw [hdig, List.map_cons] at hmap
      obtain ⟨hh, ht⟩ := List.cons.injEq .. ▸ hmap
      have hd10 : d < 10 := Nat.digits_lt_base (by norm_num) (hdig ▸ List.mem_cons_self d ds)
      have hde : ds = [] := List.map_eq_nil_iff.mp ht
      have hd0 : d = 0 := digitCh_inj d 0 hd10 (by norm_num) hh
      have := Nat.ofDigits_digits 10 n2
      rw [hdig, hde, hd0] at this
      simp [Nat.ofDigits] at this
      omega
  · rw [if_neg h1, if_pos h2,
      show (String.mk ((natDigitsRev n1 n1).map digitCh).reverse).data
        = ((natDigitsRev n1 n1).map digitCh).reverse from rfl,
      natDigitsRev_eq n1 n1 le_rfl] at hd
    have hmap : (Nat.digits 10 n1).map digitCh = ['0'] := by
      rw [← List.reverse_reverse (List.map digitCh (Nat.digits 10 n1)), hd]
      rfl
    cases hdig : Nat.digits 10 n1 with
    | nil => rw [hdig] at hmap; exact List.noConfusion hmap
    | cons d ds =>
      rw [hdig, List.map_cons] at hmap
      obtain ⟨hh, ht⟩ := List.cons.injEq .. ▸ hmap
      have hd10 : d < 10 := Nat.digits_lt_base (by norm_num) (hdig ▸ List.mem_cons_self d ds)
      have hde : ds = [] := List.map_eq_nil_iff.mp ht
      have hd0 : d = 0 := digitCh_inj d 0 hd10 (by norm_num) hh
      have := Nat.ofDigits_digits 10 n1
      rw [hdig, hde, hd0] at this
      simp [Nat.ofDigits] at this
      omega
  · rw [if_neg h1, if_neg h2,
      show (String.mk ((natDigitsRev n1 n1).map digitCh).reverse).data
        = ((natDigitsRev n1 n1).map digitCh).reverse from rfl,
      show (String.mk ((natDigitsRev n2 n2).map digitCh).reverse).data
        = ((natDigitsRev n2 n2).map digitCh).reverse from rfl,
      natDigitsRev_eq n1 n1 le_rfl, natDigitsRev_eq n2 n2 le_rfl] at hd
    have hmap := List.reverse_injective hd
    have hdig := map_digitCh_inj _ _
      (fun x hx => Nat.digits_lt_base (by norm_num) hx)
      (fun x hx => Nat.digits_lt_base (by norm_num) hx) hmap
    have e1 := Nat.ofDigits_digits 10 n1
    have e2 := Nat.ofDigits_digits 10 n2
    rw [hdig] at e1
    omega

/-- Maximal munch for digit runs: two all-digit prefixes followed by
non-digit continuations coincide. -/
theorem digit_run_inj (x : List Char) :
    ∀ (y s t : List Char),
    (∀ c ∈ x, 48 ≤ c.toNat ∧ c.toNat ≤ 57) →
    (∀ c ∈ y, 48 ≤ c.toNat ∧ c.toNat ≤ 57) →
    noDigitHead s → noDigitHead t →
    x ++ s = y ++ t → x = y ∧ s = t := by
  induction x with
  | nil =>
    intro y s t hx hy hs ht h
    cases y with
    | nil => exact ⟨rfl, h⟩
    | cons d ys =>
      rw [List.nil_append, List.cons_append] at h
      rw [h] at hs
      exact absurd (hy d (List.mem_cons_self d ys)) hs
  | cons c xs ih =>
    intro y s t hx hy hs ht h
    cases y with
    | nil =>
      rw [List.cons_append, List.nil_append] at h
      rw [← h] at ht
      exact absurd (hx c (List.mem_cons_self c xs)) ht
    | cons d ys =>
      rw [List.cons_append, List.cons_append] at h
      obtain ⟨hh, htl⟩ := List.cons.injEq .. ▸ h
      obtain ⟨hxy, hst⟩ := ih ys s t
        (fun c hc => hx c (List.mem_cons_of_mem _ hc))
        (fun c hc => hy c (List.mem_cons_of_mem _ hc)) hs ht htl
      exact ⟨by rw [hh, hxy], hst⟩

/-- Maximal munch for rendered integers: an integer rendering followed by
a non-digit continuation determines both. -/
theorem intRepr_run_inj (i1 i2 : Int) (s t : List Char)
    (hs : noDigitHead s) (ht : noDigitHead t)
    (h : (intRepr i1).data ++ s = (intRepr i2).data ++ t) : i1 = i2 ∧ s = t := by
  rw [intRepr, intRepr] at h
  by_cases h1 : i1 < 0 <;> by_cases h2 : i2 < 0
  · rw [if_pos h1, if_pos h2, String.data_append, String.data_append] at h
    rw [show ("-" : String).data = ['-'] from rfl] at h
    rw [List.cons_append, List.cons_append] at h
    obtain ⟨-, htl⟩ := List.cons.injEq .. ▸ h
    obtain ⟨hxy, hst⟩ := digit_run_inj _ _ _ _
      (natRepr_chars _) (natRepr_chars _) hs ht htl
    have := natRepr_inj _ _ (congrArg String.mk hxy)
    exact ⟨by omega, hst⟩
  · rw [if_pos h1, if_neg h2, String.data_append,
      show ("-" : String).data = ['-'] from rfl, List.cons_append] at h
    cases hn : (natRepr i2.natAbs).data with
    | nil => exact absurd hn (natRepr_ne_nil _)
    | cons d ds =>
      rw [hn, List.cons_append] at h
      obtain ⟨hh, -⟩ := List.cons.injEq .. ▸ h
      have hd := natRepr_chars i2.natAbs d (hn ▸ List.mem_cons_self d ds)
      rw [← hh] at hd
      exact absurd hd (by decide)
  · rw [if_neg h1, if_pos h2, String.data_append,
      show ("-" : String).data = ['-'] from rfl, List.cons_append] at h
    cases hn : (natRepr i1.natAbs).data with
    | nil => exact absurd hn (natRepr_ne_nil _)
    | cons d ds =>
      rw [hn, List.cons_append] at h
      obtain ⟨hh, -⟩ := List.cons.injEq .. ▸ h
      have hd := natRepr_chars i1.natAbs d (hn ▸ List.mem_cons_self d ds)
      rw [hh] at hd
      exact absurd hd (by decide)
  · rw [if_neg h1, if_neg h2] at h
    obtain ⟨hxy, hst⟩ := digit_run_inj _ _ _ _
      (natRepr_chars _) (natRepr_chars _) hs ht h
    have := natRepr_inj _ _ (congrArg String.mk hxy)
    exact ⟨by omega, hst⟩

/-- `hexVal` inverts `hexDigit` on nibbles. -/
theorem hexVal_hexDigit (n : Nat) (h : n < 16) : hexVal (hexDigit n) = some n := by
  interval_cases n <;> decide

/-- `unescOne` inverts `escChar`: reading one escape unit off the front
of an escaped body recovers the original character and the remainder. -/
theorem unescOne_escChar (c : Char) (u : List Char) :
    unescOne ((escChar c).data ++ u) = some (c, u) := by
  rw [escChar]
  split_ifs with h1 h2 h3 h4 h5 h6 h7 h8
  · subst h1; rfl
  · subst h2; rfl
  · subst h3; rfl
  · subst h4; rfl
  · subst h5; rfl
  · subst h6; rfl
  · subst h7; rfl
  · show unescOne (Char.ofNat 92 :: Char.ofNat 117 :: Char.ofNat 48 :: Char.ofNat 48
        :: hexDigit (c.toNat / 16) :: hexDigit (c.toNat % 16) :: u) = some (c, u)
    rw [show unescOne (Char.ofNat 92 :: Char.ofNat 117 :: Char.ofNat 48 :: Char.ofNat 48
          :: hexDigit (c.toNat / 16) :: hexDigit (c.toNat % 16) :: u)
        = (match hexVal (hexDigit (c.toNat / 16)), hexVal (hexDigit (c.toNat % 16)) with
           | some v1, some v2 => some (Char.ofNat (16 * v1 + v2), u)
           | _, _ => none) from rfl]
    rw [hexVal_hexDigit _ (by omega), hexVal_hexDigit _ (Nat.mod_lt _ (by omega))]
    show some (Char.ofNat (16 * (c.toNat / 16) + c.toNat % 16), u) = some (c, u)
    rw [show 16 * (c.toNat / 16) + c.toNat % 16 = c.toNat by omega, Char.ofNat_toNat]
  · show unescOne (c :: u) = some (c, u)
    rw [show unescOne (c :: u)
        = (if c = Char.ofNat 92 then
             match u with
             | [] => none
             | e :: rest2 =>
               if e = Char.ofNat 117 then
                 match rest2 with
                 | z1 :: z2 :: hx1 :: hx2 :: rest3 =>
                   if z1 = Char.ofNat 48 ∧ z2 = Char.ofNat 48 then
                     match hexVal hx1, hexVal hx2 with
                     | some v1, some v2 => some (Char.ofNat (16 * v1 + v2), rest3)
                     | _, _ => none
                   else none
                 | _ => none
               else if e = Char.ofNat 34 then some (Char.ofNat 34, rest2)
               else if e = Char.ofNat 92 then some (Char.ofNat 92, rest2)
               else if e = Char.ofNat 98 then some (Char.ofNat 8, rest2)
               else if e = Char.ofNat 116 then some (Char.ofNat 9, rest2)
               else if e = Char.ofNat 110 then some (Char.ofNat 10, rest2)
               else if e = Char.ofNat 102 then some (Char.ofNat 12, rest2)
               else if e = Char.ofNat 114 then some (Char.ofNat 13, rest2)
               else none
           else some (c, u)) from rfl]
    rw [if_neg h2]

/-- Every `escChar` output is nonempty and never starts with a quote. -/
theorem escChar_data_head (c : Char) :
    ∃ c0 rest0, (escChar c).data = c0 :: rest0 ∧ c0 ≠ Char.ofNat 34 := by
  rw [escChar]
  split_ifs with h1 h2 h3 h4 h5 h6 h7 h8
  · exact ⟨_, _, rfl, by decide⟩
  · exact ⟨_, _, rfl, by decide⟩
  · exact ⟨_, _, rfl, by decide⟩
  · exact ⟨_, _, rfl, by decide⟩
  · exact ⟨_, _, rfl, by decide⟩
  · exact ⟨_, _, rfl, by decide⟩
  · exact ⟨_, _, rfl, by decide⟩
  · exact ⟨_, _, rfl, by decide⟩
  · exact ⟨c, [], rfl, h1⟩

/-- Folding string concatenation accumulates the data lists. -/
theorem join_data_aux (L : List String) (acc : String) :
    (L.foldl (fun r s => r ++ s) acc).data = acc.data ++ (L.map String.data).flatten := by
  induction L generalizing acc with
  | nil => simp
  | cons a L ih =>
    rw [List.foldl_cons, ih, List.map_cons, List.flatten_cons, String.data_append,
      List.append_assoc]

/-- The data of an escaped body is the join of the per-character
escapes. -/
theorem escape_data (l : List Char) :
    (escape (String.mk l)).data = (l.map (fun c => (escChar c).data)).flatten := by
  rw [escape, String.join, join_data_aux]
  rw [show (String.mk l).data = l from rfl]
  rw [show ("" : String).data = [] from rfl, List.nil_append, List.map_map]
  rfl

/-- A quote-terminated escaped body determines the original characters
and the remainder. -/
theorem escape_body_inj (s1 : List Char) : ∀ (s2 r1 r2 : List Char),
    (s1.map (fun c => (escChar c).data)).flatten ++ Char.ofNat 34 :: r1
      = (s2.map (fun c => (escChar c).data)).flatten ++ Char.ofNat 34 :: r2 →
    s1 = s2 ∧ r1 = r2 := by
  induction s1 with
  | nil =>
    intro s2 r1 r2 h
    cases s2 with
    | nil =>
      rw [List.map_nil, List.flatten_nil, List.nil_append, List.nil_append] at h
      exact ⟨rfl, (List.cons.injEq .. ▸ h).2⟩
    | cons d ds =>
      obtain ⟨c0, rest0, hd, hne⟩ := escChar_data_head d
      rw [List.map_nil, List.flatten_nil, List.nil_append, List.map_cons,
        List.flatten_cons, hd, List.cons_append, List.cons_append] at h
      exact absurd (List.cons.injEq .. ▸ h).1 (Ne.symm hne)
  | cons c cs ih =>
    intro s2 r1 r2 h
    cases s2 with
    | nil =>
      obtain ⟨c0, rest0, hc, hne⟩ := escChar_data_head c
      rw [List.map_nil, List.flatten_nil, List.nil_append, List.map_cons,
        List.flatten_cons, hc, List.cons_append, List.cons_append] at h
      exact absurd (List.cons.injEq .. ▸ h).1 hne
    | cons d ds =>
      rw [List.map_cons, List.map_cons, List.flatten_cons, List.flatten_cons,
        List.append_assoc, List.append_assoc] at h
      have h2 := unescOne_escChar c ((cs.map (fun c => (escChar c).data)).flatten
        ++ Char.ofNat 34 :: r1)
      have h3 := unescOne_escChar d ((ds.map (fun c => (escChar c).data)).flatten
        ++ Char.ofNat 34 :: r2)
      have hsome := h2.symm.trans ((congrArg unescOne h).trans h3)
      obtain ⟨hcd, htail⟩ := Prod.mk.injEq .. ▸ Option.some.injEq .. ▸ hsome
      obtain ⟨hs, hr⟩ := ih ds r1 r2 htail
      exact ⟨by rw [hcd, hs], hr⟩

/-- Data of a rendered number. -/
theorem stringify_data_num (n : Int) : (stringify (.num n)).data = (intRepr n).data := rfl

/-- Data of a rendered string value. -/
theorem stringify_data_str (s : String) :
    (stringify (.str s)).data
      = Char.ofNat 34
        :: ((s.data.map (fun c => (escChar c).data)).flatten ++ [Char.ofNat 34]) := by
  have he := escape_data s.data
  rw [show String.mk s.data = s from rfl] at he
  rw [stringify, String.data_append, String.data_append, he]
  rfl

/-- Data of a rendered array value. -/
theorem stringify_data_arr (vs : List JVal) :
    (stringify (.arr vs)).data
      = Char.ofNat 91 :: ((stringifyArr vs).data ++ [Char.ofNat 93]) := by
  rw [stringify, String.data_append, String.data_append]
  rfl

/-- Data of a rendered object value. -/
theorem stringify_data_obj (kvs : List (String × JVal)) :
    (stringify (.obj kvs)).data
      = Char.ofNat 123 :: ((stringifyObj kvs).data ++ [Char.ofNat 125]) := by
  rw [stringify, String.data_append, String.data_append]
  rfl

/-- Data of a one-element array body. -/
theorem stringifyArr_data_single (v : JVal) :
    (stringifyArr [v]).data = (stringify v).data := rfl

/-- Data of a multi-element array body. -/
theorem stringifyArr_data_cons2 (v v' : JVal) (vs : List JVal) :
    (stringifyArr (v :: v' :: vs)).data
      = (stringify v).data ++ Char.ofNat 44 :: (stringifyArr (v' :: vs)).data := by
  rw [stringifyArr, String.data_append, String.data_append]
  rw [show ("," : String).data = [Char.ofNat 44] from rfl]
  rw [List.append_assoc, List.singleton_append]

/-- Data of a one-entry object body. -/
theorem stringifyObj_data_single (k : String) (v : JVal) :
    (stringifyObj [(k, v)]).data
      = Char.ofNat 34
        :: ((k.data.map (fun c => (escChar c).data)).flatten
          ++ Char.ofNat 34 :: Char.ofNat 58 :: (stringify v).data) := by
  have he := escape_data k.data
  rw [show String.mk k.data = k from rfl] at he
  rw [stringifyObj, String.data_append, String.data_append, String.data_append, he]
  rw [show ("\"" : String).data = [Char.ofNat 34] from rfl,
    show ("\":" : String).data = [Char.ofNat 34, Char.ofNat 58] from rfl]
  simp

/-- Data of a multi-entry object body. -/
theorem stringifyObj_data_cons2 (k : String) (v : JVal) (e : String × JVal)
    (kvs : List (String × JVal)) :
    (stringifyObj ((k, v) :: e :: kvs)).data
      = Char.ofNat 34
        :: ((k.data.map (fun c => (escChar c).data)).flatten
          ++ Char.ofNat 34 :: Char.ofNat 58 :: ((stringify v).data
            ++ Char.ofNat 44 :: (stringifyObj (e :: kvs)).data)) := by
  have he := escape_data k.data
  rw [show String.mk k.data = k from rfl] at he
  rw [stringifyObj, String.data_append, String.data_append, String.data_append,
    String.data_append, String.data_append, he]
  rw [show ("\"" : String).data = [Char.ofNat 34] from rfl,
    show ("\":" : String).data = [Char.ofNat 34, Char.ofNat 58] from rfl,
    show ("," : String).data = [Char.ofNat 44] from rfl]
  simp

/-- The head of a rendered integer is a minus sign or a digit. -/
theorem intRepr_head (i : Int) :
    ∃ c rest, (intRepr i).data = c :: rest
      ∧ (c.toNat = 45 ∨ (48 ≤ c.toNat ∧ c.toNat ≤ 57)) := by
  rw [intRepr]
  by_cases h : i < 0
  · rw [if_pos h, String.data_append, show ("-" : String).data = [Char.ofNat 45] from rfl,
      List.singleton_append]
    exact ⟨_, _, rfl, Or.inl (by decide)⟩
  · rw [if_neg h]
    cases hn : (natRepr i.natAbs).data with
    | nil => exact absurd hn (natRepr_ne_nil _)
    | cons c rest =>
      exact ⟨c, rest, rfl, Or.inr (natRepr_chars _ c (hn ▸ List.mem_cons_self c rest))⟩

/-- Equal concatenations with cons-shaped prefixes have equal head code
units. -/
theorem heads_match {A B s t : List Char} {c1 c2 : Char} {X Y : List Char}
    (hA : A = c1 :: X) (hB : B = c2 :: Y) (h : A ++ s = B ++ t) :
    c1.toNat = c2.toNat := by
  rw [hA, hB, List.cons_append, List.cons_append] at h
  exact congrArg Char.toNat (List.cons.injEq .. ▸ h).1

/-- A rendered number can never share a head character with a rendering
that starts with one of the non-numeric class heads. -/
theorem num_head_clash (n : Int) {B s t : List Char} {c2 : Char} {Y : List Char}
    (hB : B = c2 :: Y)
    (hlit : c2.toNat = 110 ∨ c2.toNat = 116 ∨ c2.toNat = 102 ∨ c2.toNat = 34
      ∨ c2.toNat = 91 ∨ c2.toNat = 123)
    (h : (stringify (.num n)).data ++ s = B ++ t) : False := by
  obtain ⟨c, r0, hc, hcls⟩ := intRepr_head n
  have hh := heads_match ((stringify_data_num n).trans hc) hB h
  rcases hcls with h45 | hdig <;> rcases hlit with h0 | h0 | h0 | h0 | h0 | h0 <;> omega

/-- A cons whose head is not a digit satisfies `noDigitHead`. -/
theorem noDigitHead_cons (c : Char) (s : List Char)
    (h : ¬ (48 ≤ c.toNat ∧ c.toNat ≤ 57)) : noDigitHead (c :: s) := h

/-- No rendering of a JSON value starts with a closing bracket, closing
brace, or comma. -/
theorem stringify_head_ne_closer (v : JVal) (Z R : List Char) (c0 : Char)
    (hc0 : c0.toNat = 93 ∨ c0.toNat = 125 ∨ c0.toNat = 44)
    (h : (stringify v).data ++ Z = c0 :: R) : False := by
  cases v with
  | null =>
    have hh : Char.toNat 'n' = c0.toNat := by
      rw [show (stringify JVal.null).data = 'n' :: ['u', 'l', 'l'] from rfl,
        List.cons_append] at h
      exact congrArg Char.toNat (List.cons.injEq .. ▸ h).1
    have hv : Char.toNat 'n' = 110 := rfl
    rcases hc0 with h0 | h0 | h0 <;> omega
  | bool b =>
    cases b with
    | false =>
      have hh : Char.toNat 'f' = c0.toNat := by
        rw [show (stringify (JVal.bool false)).data = 'f' :: ['a', 'l', 's', 'e'] from rfl,
          List.cons_append] at h
        exact congrArg Char.toNat (List.cons.injEq .. ▸ h).1
      have hv : Char.toNat 'f' = 102 := rfl
      rcases hc0 with h0 | h0 | h0 <;> omega
    | true =>
      have hh : Char.toNat 't' = c0.toNat := by
        rw [show (stringify (JVal.bool true)).data = 't' :: ['r', 'u', 'e'] from rfl,
          List.cons_append] at h
        exact congrArg Char.toNat (List.cons.injEq .. ▸ h).1
      have hv : Char.toNat 't' = 116 := rfl
      rcases hc0 with h0 | h0 | h0 <;> omega
  | num n =>
    obtain ⟨c, r0, hc, hcls⟩ := intRepr_head n
    have hh : c.toNat = c0.toNat := by
      rw [stringify_data_num, hc, List.cons_append] at h
      exact congrArg Char.toNat (List.cons.injEq .. ▸ h).1
    rcases hcls with h45 | hdig <;> rcases hc0 with h0 | h0 | h0 <;> omega
  | str s' =>
    have hh : (Char.ofNat 34).toNat = c0.toNat := by
      rw [stringify_data_str, List.cons_append] at h
      exact congrArg Char.toNat (List.cons.injEq .. ▸ h).1
    have hv : (Char.ofNat 34).toNat = 34 := rfl
    rcases hc0 with h0 | h0 | h0 <;> omega
  | arr vs =>
    have hh : (Char.ofNat 91).toNat = c0.toNat := by
      rw [stringify_data_arr, List.cons_append] at h
      exact congrArg Char.toNat (List.cons.injEq .. ▸ h).1
    have hv : (Char.ofNat 91).toNat = 91 := rfl
    rcases hc0 with h0 | h0 | h0 <;> omega
  | obj kvs =>
    have hh : (Char.ofNat 123).toNat = c0.toNat := by
      rw [stringify_data_obj, List.cons_append] at h
      exact congrArg Char.toNat (List.cons.injEq .. ▸ h).1
    have hv : (Char.ofNat 123).toNat = 123 := rfl
    rcases hc0 with h0 | h0 | h0 <;> omega

/-- Bracket-terminated array bodies determine their elements, given the
element-level statement for sizes up to `N`. -/
theorem stringifyArr_prefix_inj (N : Nat)
    (ihN : ∀ (v w : JVal) (s t : List Char), sizeOf v ≤ N → noDigitHead s →
      noDigitHead t → (stringify v).data ++ s = (stringify w).data ++ t →
      v = w ∧ s = t) :
    ∀ (xs ys : List JVal) (s t : List Char), sizeOf xs ≤ N →
      noDigitHead s → noDigitHead t →
      (stringifyArr xs).data ++ Char.ofNat 93 :: s
        = (stringifyArr ys).data ++ Char.ofNat 93 :: t →
      xs = ys ∧ s = t := by
  intro xs
  induction xs with
  | nil =>
    intro ys s t hsz hs ht h
    rw [show (stringifyArr ([] : List JVal)).data = [] from rfl, List.nil_append] at h
    cases ys with
    | nil =>
      rw [show (stringifyArr ([] : List JVal)).data = [] from rfl, List.nil_append] at h
      exact ⟨rfl, (List.cons.injEq .. ▸ h).2⟩
    | cons y ys' =>
      cases ys' with
      | nil =>
        rw [stringifyArr_data_single] at h
        exact (stringify_head_ne_closer y _ _ _ (Or.inl (by decide)) h.symm).elim
      | cons y2 ys2 =>
        rw [stringifyArr_data_cons2, List.append_assoc] at h
        exact (stringify_head_ne_closer y _ _ _ (Or.inl (by decide)) h.symm).elim
  | cons x xs ihl =>
    intro ys s t hsz hs ht h
    have hx : sizeOf x ≤ N := by
      simp only [List.cons.sizeOf_spec] at hsz
      omega
    have hxs : sizeOf xs ≤ N := by
      simp only [List.cons.sizeOf_spec] at hsz
      omega
    cases ys with
    | nil =>
      rw [show (stringifyArr ([] : List JVal)).data = [] from rfl, List.nil_append] at h
      cases xs with
      | nil =>
        rw [stringifyArr_data_single] at h
        exact (stringify_head_ne_closer x _ _ _ (Or.inl (by decide)) h).elim
      | cons x2 xs2 =>
        rw [stringifyArr_data_cons2, List.append_assoc] at h
        exact (stringify_head_ne_closer x _ _ _ (Or.inl (by decide)) h).elim
    | cons y ys' =>
      cases xs with
      | nil =>
        cases ys' with
        | nil =>
          rw [stringifyArr_data_single, stringifyArr_data_single] at h
          obtain ⟨hv, hst⟩ := ihN x y _ _ hx
            (noDigitHead_cons _ _ (by decide)) (noDigitHead_cons _ _ (by decide)) h
          exact ⟨by rw [hv], (List.cons.injEq .. ▸ hst).2⟩
        | cons y2 ys2 =>
          rw [stringifyArr_data_single, stringifyArr_data_cons2, List.append_assoc] at h
          obtain ⟨-, hst⟩ := ihN x y _ _ hx
            (noDigitHead_cons _ _ (by decide)) (noDigitHead_cons _ _ (by decide)) h
          exact absurd (List.cons.injEq .. ▸ hst).1 (by decide)
      | cons x2 xs2 =>
        cases ys' with
        | nil =>
          rw [stringifyArr_data_cons2, stringifyArr_data_single, List.append_assoc] at h
          obtain ⟨-, hst⟩ := ihN x y _ _ hx
            (noDigitHead_cons _ _ (by decide)) (noDigitHead_cons _ _ (by decide)) h
          exact absurd (List.cons.injEq .. ▸ hst).1 (by decide)
        | cons y2 ys2 =>
          rw [stringifyArr_data_cons2, stringifyArr_data_cons2,
            List.append_assoc, List.append_assoc] at h
          obtain ⟨hv, hst⟩ := ihN x y _ _ hx
            (noDigitHead_cons _ _ (by decide)) (noDigitHead_cons _ _ (by decide)) h
          obtain ⟨hxs2, hst2⟩ := ihl (y2 :: ys2) s t hxs hs ht
            (List.cons.injEq .. ▸ hst).2
          exact ⟨by rw [hv, hxs2], hst2⟩

/-- Brace-terminated object bodies determine their entries, given the
element-level statement for sizes up to `N`. -/
theorem stringifyObj_prefix_inj (N : Nat)
    (ihN : ∀ (v w : JVal) (s t : List Char), sizeOf v ≤ N → noDigitHead s →
      noDigitHead t → (stringify v).data ++ s = (stringify w).data ++ t →
      v = w ∧ s = t) :
    ∀ (kvs1 kvs2 : List (String × JVal)) (s t : List Char), sizeOf kvs1 ≤ N →
      noDigitHead s → noDigitHead t →
      (stringifyObj kvs1).data ++ Char.ofNat 125 :: s
        = (stringifyObj kvs2).data ++ Char.ofNat 125 :: t →
      kvs1 = kvs2 ∧ s = t := by
  intro kvs1
  induction kvs1 with
  | nil =>
    intro kvs2 s t hsz hs ht h
    rw [show (stringifyObj ([] : List (String × JVal))).data = [] from rfl,
      List.nil_append] at h
    cases kvs2 with
    | nil =>
      rw [show (stringifyObj ([] : List (String × JVal))).data = [] from rfl,
        List.nil_append] at h
      exact ⟨rfl, (List.cons.injEq .. ▸ h).2⟩
    | cons e2 rest2 =>
      obtain ⟨k2, v2⟩ := e2
      cases rest2 with
      | nil =>
        rw [stringifyObj_data_single, List.cons_append] at h
        exact absurd (List.cons.injEq .. ▸ h).1 (by decide)
      | cons e3 rest3 =>
        rw [stringifyObj_data_cons2, List.cons_append] at h
        exact absurd (List.cons.injEq .. ▸ h).1 (by decide)
  | cons e1 kvs ihl =>
    intro kvs2 s t hsz hs ht h
    obtain ⟨k1, v1⟩ := e1
    have hv1 : sizeOf v1 ≤ N := by
      simp only [List.cons.sizeOf_spec, Prod.mk.sizeOf_spec] at hsz
      omega
    have hkvs : sizeOf kvs ≤ N := by
      simp only [List.cons.sizeOf_spec] at hsz
      omega
    cases kvs2 with
    | nil =>
      rw [show (stringifyObj ([] : List (String × JVal))).data = [] from rfl,
        List.nil_append] at h
      cases kvs with
      | nil =>
        rw [stringifyObj_data_single, List.cons_append] at h
        exact absurd (List.cons.injEq .. ▸ h).1 (by decide)
      | cons e3 rest3 =>
        rw [stringifyObj_data_cons2, List.cons_append] at h
        exact absurd (List.cons.injEq .. ▸ h).1 (by decide)
    | cons e2 rest2 =>
      obtain ⟨k2, v2⟩ := e2
      cases kvs with
      | nil =>
        cases rest2 with
        | nil =>
          rw [stringifyObj_data_single, stringifyObj_data_single,
            List.cons_append, List.cons_append] at h
          have hbody := (List.cons.injEq .. ▸ h).2
          simp only [List.append_assoc, List.cons_append] at hbody
          obtain ⟨hk, hrest⟩ := escape_body_inj k1.data k2.data _ _ hbody
          have hrest2 := (List.cons.injEq .. ▸ hrest).2
          obtain ⟨hv, hst⟩ := ihN v1 v2 _ _ hv1
            (noDigitHead_cons _ _ (by decide)) (noDigitHead_cons _ _ (by decide)) hrest2
          refine ⟨?_, (List.cons.injEq .. ▸ hst).2⟩
          rw [show k1 = k2 from congrArg String.mk hk, hv]
        | cons e3 rest3 =>
          rw [stringifyObj_data_single, stringifyObj_data_cons2,
            List.cons_append, List.cons_append] at h
          have hbody := (List.cons.injEq .. ▸ h).2
          simp only [List.append_assoc, List.cons_append] at hbody
          obtain ⟨-, hrest⟩ := escape_body_inj k1.data k2.data _ _ hbody
          have hrest2 := (List.cons.injEq .. ▸ hrest).2
          obtain ⟨-, hst⟩ := ihN v1 v2 _ _ hv1
            (noDigitHead_cons _ _ (by decide)) (noDigitHead_cons _ _ (by decide)) hrest2
          exact absurd (List.cons.injEq .. ▸ hst).1 (by decide)
      | cons e3 rest3 =>
        cases rest2 with
        | nil =>
          rw [stringifyObj_data_cons2, stringifyObj_data_single,
            List.cons_append, List.cons_append] at h
          have hbody := (List.cons.injEq .. ▸ h).2
          simp only [List.append_assoc, List.cons_append] at hbody
          obtain ⟨-, hrest⟩ := escape_body_inj k1.data k2.data _ _ hbody
          have hrest2 := (List.cons.injEq .. ▸ hrest).2
          obtain ⟨-, hst⟩ := ihN v1 v2 _ _ hv1
            (noDigitHead_cons _ _ (by decide)) (noDigitHead_cons _ _ (by decide)) hrest2
          exact absurd (List.cons.injEq .. ▸ hst).1 (by decide)
        | cons e4 rest4 =>
          rw [stringifyObj_data_cons2, stringifyObj_data_cons2,
            List.cons_append, List.cons_append] at h
          have hbody := (List.cons.injEq .. ▸ h).2
          simp only [List.append_assoc, List.cons_append] at hbody
          obtain ⟨hk, hrest⟩ := escape_body_inj k1.data k2.data _ _ hbody
          have hrest2 := (List.cons.injEq .. ▸ hrest).2
          obtain ⟨hv, hst⟩ := ihN v1 v2 _ _ hv1
            (noDigitHead_cons _ _ (by decide)) (noDigitHead_cons _ _ (by decide)) hrest2
          obtain ⟨hkv, hst2⟩ := ihl (e4 :: rest4) s t hkvs hs ht
            (List.cons.injEq .. ▸ hst).2
          refine ⟨?_, hst2⟩
          rw [show k1 = k2 from congrArg String.mk hk, hv, hkv]

/-- A JSON rendering followed by a non-digit continuation determines the
value and the continuation (bounded form, by strong induction on the
value's size). -/
theorem stringify_prefix_inj (N : Nat) : ∀ (v w : JVal) (s t : List Char),
    sizeOf v ≤ N → noDigitHead s → noDigitHead t →
    (stringify v).data ++ s = (stringify w).data ++ t → v = w ∧ s = t := by
  induction N with
  | zero =>
    intro v w s t hsz
    exfalso
    cases v <;> simp at hsz
  | succ N ih =>
    intro v w s t hsz hs ht h
    cases v with
    | null =>
      cases w with
      | null =>
        refine ⟨rfl, ?_⟩
        exact List.append_cancel_left h
      | bool b =>
        cases b with
        | true =>
          exact absurd (heads_match
            (show (stringify JVal.null).data = 'n' :: ['u', 'l', 'l'] from rfl)
            (show (stringify (JVal.bool true)).data = 't' :: ['r', 'u', 'e'] from rfl) h)
            (by decide)
        | false =>
          exact absurd (heads_match
            (show (stringify JVal.null).data = 'n' :: ['u', 'l', 'l'] from rfl)
            (show (stringify (JVal.bool false)).data = 'f' :: ['a', 'l', 's', 'e'] from rfl) h)
            (by decide)
      | num n =>
        exact (num_head_clash n
          (show (stringify JVal.null).data = 'n' :: ['u', 'l', 'l'] from rfl)
          (by decide) h.symm).elim
      | str s2 =>
        exact absurd (heads_match
          (show (stringify JVal.null).data = 'n' :: ['u', 'l', 'l'] from rfl)
          (stringify_data_str s2) h) (by decide)
      | arr ys =>
        exact absurd (heads_match
          (show (stringify JVal.null).data = 'n' :: ['u', 'l', 'l'] from rfl)
          (stringify_data_arr ys) h) (by decide)
      | obj kvs2 =>
        exact absurd (heads_match
          (show (stringify JVal.null).data = 'n' :: ['u', 'l', 'l'] from rfl)
          (stringify_data_obj kvs2) h) (by decide)
    | bool b =>
      cases w with
      | null =>
        cases b with
        | true =>
          exact absurd (heads_match
            (show (stringify (JVal.bool true)).data = 't' :: ['r', 'u', 'e'] from rfl)
            (show (stringify JVal.null).data = 'n' :: ['u', 'l', 'l'] from rfl) h)
            (by decide)
        | false =>
          exact absurd (heads_match
            (show (stringify (JVal.bool false)).data = 'f' :: ['a', 'l', 's', 'e'] from rfl)
            (show (stringify JVal.null).data = 'n' :: ['u', 'l', 'l'] from rfl) h)
            (by decide)
      | bool b2 =>
        cases b with
        | true =>
          cases b2 with
          | true => exact ⟨rfl, List.append_cancel_left h⟩
          | false =>
            exact absurd (heads_match
              (show (stringify (JVal.bool true)).data = 't' :: ['r', 'u', 'e'] from rfl)
              (show (stringify (JVal.bool false)).data = 'f' :: ['a', 'l', 's', 'e'] from rfl) h)
              (by decide)
        | false =>
          cases b2 with
          | true =>
            exact absurd (heads_match
              (show (stringify (JVal.bool false)).data = 'f' :: ['a', 'l', 's', 'e'] from rfl)
              (show (stringify (JVal.bool true)).data = 't' :: ['r', 'u', 'e'] from rfl) h)
              (by decide)
          | false => exact ⟨rfl, List.append_cancel_left h⟩
      | num n =>
        cases b with
        | true =>
          exact (num_head_clash n
            (show (stringify (JVal.bool true)).data = 't' :: ['r', 'u', 'e'] from rfl)
            (by decide) h.symm).elim
        | false =>
          exact (num_head_clash n
            (show (stringify (JVal.bool false)).data = 'f' :: ['a', 'l', 's', 'e'] from rfl)
            (by decide) h.symm).elim
      | str s2 =>
        cases b with
        | true =>
          exact absurd (heads_match
            (show (stringify (JVal.bool true)).data = 't' :: ['r', 'u', 'e'] from rfl)
            (stringify_data_str s2) h) (by decide)
        | false =>
          exact absurd (heads_match
            (show (stringify (JVal.bool false)).data = 'f' :: ['a', 'l', 's', 'e'] from rfl)
            (stringify_data_str s2) h) (by decide)
      | arr ys =>
        cases b with
        | true =>
          exact absurd (heads_match
            (show (stringify (JVal.bool true)).data = 't' :: ['r', 'u', 'e'] from rfl)
            (stringify_data_arr ys) h) (by decide)
        | false =>
          exact absurd (heads_match
            (show (stringify (JVal.bool false)).data = 'f' :: ['a', 'l', 's', 'e'] from rfl)
            (stringify_data_arr ys) h) (by decide)
      | obj kvs2 =>
        cases b with
        | true =>
          exact absurd (heads_match
            (show (stringify (JVal.bool true)).data = 't' :: ['r', 'u', 'e'] from rfl)
            (stringify_data_obj kvs2) h) (by decide)
        | false =>
          exact absurd (heads_match
            (show (stringify (JVal.bool false)).data = 'f' :: ['a', 'l', 's', 'e'] from rfl)
            (stringify_data_obj kvs2) h) (by decide)
    | num n =>
      cases w with
      | null =>
        exact (num_head_clash n
          (show (stringify JVal.null).data = 'n' :: ['u', 'l', 'l'] from rfl)
          (by decide) h).elim
      | bool b =>
        cases b with
        | true =>
          exact (num_head_clash n
            (show (stringify (JVal.bool true)).data = 't' :: ['r', 'u', 'e'] from rfl)
            (by decide) h).elim
        | false =>
          exact (num_head_clash n
            (show (stringify (JVal.bool false)).data = 'f' :: ['a', 'l', 's', 'e'] from rfl)
            (by decide) h).elim
      | num n2 =>
        rw [stringify_data_num, stringify_data_num] at h
        obtain ⟨hn, hst⟩ := intRepr_run_inj n n2 s t hs ht h
        exact ⟨by rw [hn], hst⟩
      | str s2 =>
        exact (num_head_clash n (stringify_data_str s2) (by decide) h).elim
      | arr ys =>
        exact (num_head_clash n (stringify_data_arr ys) (by decide) h).elim
      | obj kvs2 =>
        exact (num_head_clash n (stringify_data_obj kvs2) (by decide) h).elim
    | str s1 =>
      cases w with
      | null =>
        exact absurd (heads_match (stringify_data_str s1)
          (show (stringify JVal.null).data = 'n' :: ['u', 'l', 'l'] from rfl) h) (by decide)
      | bool b =>
        cases b with
        | true =>
          exact absurd (heads_match (stringify_data_str s1)
            (show (stringify (JVal.bool true)).data = 't' :: ['r', 'u', 'e'] from rfl) h)
            (by decide)
        | false =>
          exact absurd (heads_match (stringify_data_str s1)
            (show (stringify (JVal.bool false)).data = 'f' :: ['a', 'l', 's', 'e'] from rfl) h)
            (by decide)
      | num n =>
        exact (num_head_clash n (stringify_data_str s1) (by decide) h.symm).elim
      | str s2 =>
        rw [stringify_data_str, stringify_data_str, List.cons_append, List.cons_append] at h
        have hbody := (List.cons.injEq .. ▸ h).2
        simp only [List.append_assoc, List.singleton_append] at hbody
        obtain ⟨hk, hr⟩ := escape_body_inj s1.data s2.data s t hbody
        exact ⟨by rw [show s1 = s2 from congrArg String.mk hk], hr⟩
      | arr ys =>
        exact absurd (heads_match (stringify_data_str s1) (stringify_data_arr ys) h)
          (by decide)
      | obj kvs2 =>
        exact absurd (heads_match (stringify_data_str s1) (stringify_data_obj kvs2) h)
          (by decide)
    | arr xs =>
      cases w with
      | null =>
        exact absurd (heads_match (stringify_data_arr xs)
          (show (stringify JVal.null).data = 'n' :: ['u', 'l', 'l'] from rfl) h) (by decide)
      | bool b =>
        cases b with
        | true =>
          exact absurd (heads_match (stringify_data_arr xs)
            (show (stringify (JVal.bool true)).data = 't' :: ['r', 'u', 'e'] from rfl) h)
            (by decide)
        | false =>
          exact absurd (heads_match (stringify_data_arr xs)
            (show (stringify (JVal.bool false)).data = 'f' :: ['a', 'l', 's', 'e'] from rfl) h)
            (by decide)
      | num n =>
        exact (num_head_clash n (stringify_data_arr xs) (by decide) h.symm).elim
      | str s2 =>
        exact absurd (heads_match (stringify_data_arr xs) (stringify_data_str s2) h)
          (by decide)
      | arr ys =>
        rw [stringify_data_arr, stringify_data_arr, List.cons_append, List.cons_append] at h
        have hbody := (List.cons.injEq .. ▸ h).2
        simp only [List.append_assoc, List.singleton_append] at hbody
        have hxs : sizeOf xs ≤ N := by
          simp only [JVal.arr.sizeOf_spec] at hsz
          omega
        obtain ⟨he, hst⟩ := stringifyArr_prefix_inj N ih xs ys s t hxs hs ht hbody
        exact ⟨by rw [he], hst⟩
      | obj kvs2 =>
        exact absurd (heads_match (stringify_data_arr xs) (stringify_data_obj kvs2) h)
          (by decide)
    | obj kvs1 =>
      cases w with
      | null =>
        exact absurd (heads_match (stringify_data_obj kvs1)
          (show (stringify JVal.null).data = 'n' :: ['u', 'l', 'l'] from rfl) h) (by decide)
      | bool b =>
        cases b with
        | true =>
          exact absurd (heads_match (stringify_data_obj kvs1)
            (show (stringify (JVal.bool true)).data = 't' :: ['r', 'u', 'e'] from rfl) h)
            (by decide)
        | false =>
          exact absurd (heads_match (stringify_data_obj kvs1)
            (show (stringify (JVal.bool false)).data = 'f' :: ['a', 'l', 's', 'e'] from rfl) h)
            (by decide)
      | num n =>
        exact (num_head_clash n (stringify_data_obj kvs1) (by decide) h.symm).elim
      | str s2 =>
        exact absurd (heads_match (stringify_data_obj kvs1) (stringify_data_str s2) h)
          (by decide)
      | arr ys =>
        exact absurd (heads_match (stringify_data_obj kvs1) (stringify_data_arr ys) h)
          (by decide)
      | obj kvs2 =>
        rw [stringify_data_obj, stringify_data_obj, List.cons_append, List.cons_append] at h
        have hbody := (List.cons.injEq .. ▸ h).2
        simp only [List.append_assoc, List.singleton_append] at hbody
        have hkvs : sizeOf kvs1 ≤ N := by
          simp only [JVal.obj.sizeOf_spec] at hsz
          omega
        obtain ⟨he, hst⟩ := stringifyObj_prefix_inj N ih kvs1 kvs2 s t hkvs hs ht hbody
        exact ⟨by rw [he], hst⟩

/-- `JSON.stringify` is injective on JSON values: its string-equality
test is exactly deep structural equality. -/
theorem stringify_injective {v w : JVal} (h : stringify v = stringify w) : v = w := by
  have hd : (stringify v).data ++ [] = (stringify w).data ++ [] := by
    rw [List.append_nil, List.append_nil, h]
  exact (stringify_prefix_inj (sizeOf v) v w [] [] le_rfl trivial trivial hd).1

/-- `jstr` is injective on possibly-absent values: `undefined` never
renders, and distinct values render distinctly. -/
theorem jstr_injective {a b : Option JVal} (h : jstr a = jstr b) : a = b := by
  cases a with
  | none =>
    cases b with
    | none => rfl
    | some y => exact Option.noConfusion h
  | some x =>
    cases b with
    | none => exact Option.noConfusion h
    | some y =>
      rw [jstr, jstr, Option.map_some', Option.map_some'] at h
      exact congrArg some (stringify_injective (Option.some.inj h))

/-- C9: for every metadata key whose value is identical (deep structural
equality) across all sources, the merged metadata contains that key with
the single shared value and no companion `{key}_conflicts` key — provided
no source itself carries the literal `{key}_conflicts` key and the key is
not the `_conflicts` sibling of another source key. -/
theorem merge_metadata_agreement_collapse (metas : List (Option Obj)) (k : String)
    (v : JVal) (hne : metas ≠ [])
    (hall : ∀ m ∈ metas, ∃ o, m = some o ∧ List.lookup k o = some v)
    (hc : (k ++ "_conflicts") ∉ collectKeys metas)
    (hnc : ∀ k' ∈ collectKeys metas, k' ++ "_conflicts" ≠ k) :
    List.lookup k (serializeMeta (reconcileMeta metas)) = some v
    ∧ List.lookup (k ++ "_conflicts") (serializeMeta (reconcileMeta metas)) = none := by
  obtain ⟨m0, rest, rfl⟩ := List.exists_cons_of_ne_nil hne
  obtain ⟨o0, hm0, hv0⟩ := hall m0 (List.mem_cons_self m0 rest)
  subst hm0
  have hk : k ∈ collectKeys (some o0 :: rest) :=
    mem_collectKeys_of _ o0 k (List.mem_cons_self _ _) (mem_keys_of_lookup hv0)
  have hhead : (valsOf (some o0 :: rest) k).headD none = some v := by
    simp [valsOf, metaVal, hv0]
  have hagr : valsAgree (valsOf (some o0 :: rest) k) = true := by
    rw [valsAgree, List.all_eq_true]
    intro x hx
    rw [hhead]
    obtain ⟨m, hm, rfl⟩ := List.mem_map.mp hx
    obtain ⟨o, rfl, hv⟩ := hall m hm
    rw [show metaVal (some o) k = List.lookup k o from rfl, hv]
    exact beq_self_eq_true _
  constructor
  · rw [lookup_serializeMeta _ (keys_nodup_reconcileMeta _) k,
      reconcileMeta_lookup_self _ k hk hnc, hhead]
    rfl
  · rw [lookup_serializeMeta _ (keys_nodup_reconcileMeta _) _,
      reconcileMeta_conflicts_of_agree _ k hk hc hagr]
    rfl

/-- C9 witness: two sources agreeing on `title = "x"` merge to
`title = "x"` with no `title_conflicts` key. -/
theorem merge_metadata_agreement_collapse_witness :
    List.lookup "title" (serializeMeta (reconcileMeta
        [some [("title", .str "x")], some [("title", .str "x")]]))
      = some (.str "x")
    ∧ List.lookup ("title" ++ "_conflicts") (serializeMeta (reconcileMeta
        [some [("title", .str "x")], some [("title", .str "x")]]))
      = none :=
  merge_metadata_agreement_collapse
    [some [("title", .str "x")], some [("title", .str "x")]] "title" (.str "x")
    (by simp)
    (by
      intro m hm
      rcases hm with _ | ⟨_, hm⟩
      · exact ⟨[("title", .str "x")], rfl, rfl⟩
      · rcases hm with _ | ⟨_, hm⟩
        · exact ⟨[("title", .str "x")], rfl, rfl⟩
        · exact absurd hm (List.not_mem_nil m))
    (by decide) (by decide)

/-- C2 counterexample: three sources with values `5, 7, 7` for key `p`
disagree, and the code emits one `ALT:` entry per differing source
occurrence — `"ALT: 7 | ALT: 7"` — not a list of the other sources'
distinct values (which would be `"ALT: 7"`). -/
theorem merge_metadata_conflict_tagging_counterexample :
    List.lookup ("p" ++ "_conflicts") (serializeMeta (reconcileMeta
        [some [("p", .num 5)], some [("p", .num 7)], some [("p", .num 7)]]))
      = some (.str "ALT: 7 | ALT: 7")
    ∧ "ALT: 7 | ALT: 7" ≠ "ALT: 7" :=
  ⟨rfl, by decide⟩

/-- C2 (amended): for every metadata key on which the sources disagree
under deep structural equality (some other source's value differs from
the first source's — `stringify_injective` makes this equivalent to the
code's `JSON.stringify` comparison), when the first source has a value
for the key, no source carries the literal `{key}_conflicts` key, and the
key is not the `_conflicts` sibling of another source key, the merged
output keeps the first source's value under the key and records under
`{key}_conflicts` the pipe-separated `ALT:` list of the other sources'
values that differ from the first source's, one entry per source
occurrence. -/
theorem merge_metadata_conflict_tagging (metas : List (Option Obj)) (k : String)
    (v0 : JVal) (hne : metas ≠ [])
    (hfirst : metaVal (metas.headD none) k = some v0)
    (hdis : ∃ x ∈ (valsOf metas k).drop 1, x ≠ some v0)
    (hc : (k ++ "_conflicts") ∉ collectKeys metas)
    (hnc : ∀ k' ∈ collectKeys metas, k' ++ "_conflicts" ≠ k) :
    List.lookup k (serializeMeta (reconcileMeta metas)) = some v0
    ∧ List.lookup (k ++ "_conflicts") (serializeMeta (reconcileMeta metas))
        = some (.str (altList (valsOf metas k))) := by
  obtain ⟨m0, rest, rfl⟩ := List.exists_cons_of_ne_nil hne
  rw [show (m0 :: rest).headD none = m0 from rfl] at hfirst
  obtain ⟨o0, rfl⟩ : ∃ o, m0 = some o := by
    cases m0 with
    | none => exact Option.noConfusion hfirst
    | some o => exact ⟨o, rfl⟩
  have hk : k ∈ collectKeys (some o0 :: rest) :=
    mem_collectKeys_of _ o0 k (List.mem_cons_self _ _) (mem_keys_of_lookup hfirst)
  have hhead : (valsOf (some o0 :: rest) k).headD none = some v0 := by
    simp only [valsOf, List.map_cons, List.headD_cons]
    exact hfirst
  obtain ⟨x, hx, hxne⟩ := hdis
  have hdisF : valsAgree (valsOf (some o0 :: rest) k) = false := by
    rw [valsAgree, List.all_eq_false]
    refine ⟨x, List.mem_of_mem_drop hx, ?_⟩
    rw [hhead]
    intro hbeq
    exact hxne (jstr_injective (eq_of_beq hbeq))
  have hxfilter : x ∈ ((valsOf (some o0 :: rest) k).drop 1).filter
      (fun y => jstr y != jstr ((valsOf (some o0 :: rest) k).headD none)) := by
    refine List.mem_filter.mpr ⟨hx, ?_⟩
    rw [hhead]
    exact bne_iff_ne.mpr (fun hj => hxne (jstr_injective hj))
  have halt : altList (valsOf (some o0 :: rest) k) ≠ "" := by
    rw [altList]
    exact joinSep_altEntry_ne_empty _ (List.ne_nil_of_mem hxfilter)
  constructor
  · rw [lookup_serializeMeta _ (keys_nodup_reconcileMeta _) k,
      reconcileMeta_lookup_self _ k hk hnc, hhead]
    rfl
  · rw [lookup_serializeMeta _ (keys_nodup_reconcileMeta _) _,
      reconcileMeta_conflicts_of_disagree _ k hk hc hdisF halt]
    rfl

/-- C2 witness: two sources whose `page_number` values are 5 and 7 merge
to `page_number = 5` with `page_number_conflicts = "ALT: 7"`. -/
theorem merge_metadata_conflict_tagging_witness :
    List.lookup "page_number" (serializeMeta (reconcileMeta
        [some [("page_number", .num 5)], some [("page_number", .num 7)]]))
      = some (.num 5)
    ∧ List.lookup ("page_number" ++ "_conflicts") (serializeMeta (reconcileMeta
        [some [("page_number", .num 5)], some [("page_number", .num 7)]]))
      = some (.str "ALT: 7") := by
  have h := merge_metadata_conflict_tagging
    [some [("page_number", .num 5)], some [("page_number", .num 7)]]
    "page_number" (.num 5) (by simp) rfl
    ⟨some (.num 7), by simp [valsOf, metaVal],
     fun hx => absurd (JVal.num.inj (Option.some.inj hx)) (by decide)⟩
    (by decide) (by decide)
  exact ⟨h.1, h.2.trans rfl⟩

/-- The poll loop skips any number of non-terminal progress responses. -/
theorem pollLoop_append_progress (cont : Bool) (inputFile : String)
    (fileBytes : List Nat) (model now : String) (pre post : List PollResp)
    (h : ∀ p ∈ pre, isProgressPoll p = true) :
    pollLoop cont inputFile fileBytes model now (pre ++ post)
      = pollLoop cont inputFile fileBytes model now post := by
  induction pre with
  | nil => rfl
  | cons p pre' ih =>
    have hp := h p (List.mem_cons_self p pre')
    cases p with
    | ok st =>
      simp only [isProgressPoll, Bool.and_eq_true, bne_iff_ne] at hp
      rw [List.cons_append]
      rw [show pollLoop cont inputFile fileBytes model now (.ok st :: (pre' ++ post))
            = if st.status = "error" then
                (if cont then
                  .degraded (createPartialResultFromError st.error_type st.error
                    inputFile fileBytes model now)
                else .threw ("Job error: " ++ st.error.getD "undefined"))
              else if st.status = "complete" then .fetchNeeded
              else pollLoop cont inputFile fileBytes model now (pre' ++ post) from rfl]
      rw [if_neg hp.1, if_neg hp.2]
      exact ih (fun q hq => h q (List.mem_cons_of_mem _ hq))
    | httpErr s b => exact absurd hp (by simp [isProgressPoll])
    | exn m => exact absurd hp (by simp [isProgressPoll])

/-- C6: an HTTP 202 on the result fetch after a `complete` poll status is
treated as a failure, not as "not ready yet": in strict mode the command
throws (`main().catch` exits non-zero) and writes no artifact; with
`--continue-on-failure` it writes the degradation synthesizer's timeout
placeholder (marked `transcription_status = "failed"`) instead of
terminating. -/
theorem fetch_202_treated_as_failure (inputFile : String) (fileBytes : List Nat)
    (model now jobId : String) (pre : List PollResp)
    (hpre : ∀ p ∈ pre, isProgressPoll p = true) :
    transcribeSingleFile false inputFile fileBytes model now
        ⟨.ok jobId, pre ++ [.ok ⟨"complete", none, none⟩], .accepted⟩
      = .threw "Failed to fetch final doc object: Still processing, got 202."
    ∧ transcribeSingleFile true inputFile fileBytes model now
        ⟨.ok jobId, pre ++ [.ok ⟨"complete", none, none⟩], .accepted⟩
      = .wrote (createPartialResultFromTimeout inputFile fileBytes model now)
    ∧ metaVal (createPartialResultFromTimeout inputFile fileBytes model now).metadata
        "transcription_status" = some (.str "failed") := by
  refine ⟨?_, ?_, rfl⟩
  · show (match pollLoop false inputFile fileBytes model now
        (pre ++ [.ok ⟨"complete", none, none⟩]) with
      | .stillPolling => FileOutcome.stillPolling
      | .threw m => .threw m
      | .degraded d => .wrote d
      | .fetchNeeded =>
        match fetchPhase false inputFile fileBytes model now .accepted with
        | .error m => .threw m
        | .ok d => .wrote d) = _
    rw [pollLoop_append_progress false inputFile fileBytes model now pre _ hpre]
    rfl
  · show (match pollLoop true inputFile fileBytes model now
        (pre ++ [.ok ⟨"complete", none, none⟩]) with
      | .stillPolling => FileOutcome.stillPolling
      | .threw m => .threw m
      | .degraded d => .wrote d
      | .fetchNeeded =>
        match fetchPhase true inputFile fileBytes model now .accepted with
        | .error m => .threw m
        | .ok d => .wrote d) = _
    rw [pollLoop_append_progress true inputFile fileBytes model now pre _ hpre]
    rfl

/-- C6 witness: with a job that polls straight to `complete` and a result
endpoint answering 202, strict mode throws and continue-on-failure mode
writes the timeout placeholder. -/
theorem fetch_202_treated_as_failure_witness :
    transcribeSingleFile false "doc.pdf" [7] "m" "t"
        ⟨.ok "job-1", [.ok ⟨"complete", none, none⟩], .accepted⟩
      = .threw "Failed to fetch final doc object: Still processing, got 202."
    ∧ transcribeSingleFile true "doc.pdf" [7] "m" "t"
        ⟨.ok "job-1", [.ok ⟨"complete", none, none⟩], .accepted⟩
      = .wrote (createPartialResultFromTimeout "doc.pdf" [7] "m" "t") := by
  have h := fetch_202_treated_as_failure "doc.pdf" [7] "m" "t" "job-1" []
    (by intro p hp; exact absurd hp (List.not_mem_nil p))
  exact ⟨h.1, h.2.1⟩

/-- C7 counterexample: in a 3-file batch with continue-on-failure on,
when file 2's submission fails, the batch still completes and files 1 and
3 are written — but file 2 yields no artifact at all (its outcome is the
caught throw, not a degraded document), contradicting the claim for the
submission-failure kind. -/
theorem batch_submission_failure_no_artifact :
    (batchLoop true "m" "t"
      [⟨"a.pdf", [1], ⟨.ok "j1", [.ok ⟨"complete", none, none⟩], .ok { id := some "d1" }⟩⟩,
       ⟨"b.pdf", [2], ⟨.exn "boom", [], .accepted⟩⟩,
       ⟨"c.pdf", [3], ⟨.ok "j3", [.ok ⟨"complete", none, none⟩], .ok { id := some "d3" }⟩⟩])
      = { outcomes :=
            [.wrote { id := some "d1" },
             .threw "Failed to start document conversion: boom",
             .wrote { id := some "d3" }],
          completed := true } :=
  rfl

/-- C7 (amended): in a 3-file batch with continue-on-failure on, when
files 1 and 3 would individually succeed with documents `d1`, `d3`, the
batch never aborts at file 2: if file 2's run degrades to a placeholder
document the batch completes with artifacts for all three files; if file
2's run throws (in particular on a submission failure) the batch still
completes with artifacts for files 1 and 3 but none for file 2.  A job
error at file 2 degrades to the synthesizer's job-error placeholder, and
a result-fetch failure after `complete` (HTTP error, 202, or exception)
degrades to the matching placeholder. -/
theorem batch_continue_on_failure (model now : String) (f1 f2 f3 : BatchFile)
    (d1 d3 : Document)
    (h1 : transcribeSingleFile true f1.inputFile f1.fileBytes model now f1.env = .wrote d1)
    (h3 : transcribeSingleFile true f3.inputFile f3.fileBytes model now f3.env = .wrote d3) :
    (∀ d2, transcribeSingleFile true f2.inputFile f2.fileBytes model now f2.env = .wrote d2 →
        batchLoop true model now [f1, f2, f3]
          = { outcomes := [.wrote d1, .wrote d2, .wrote d3], completed := true })
    ∧ (∀ m2, transcribeSingleFile true f2.inputFile f2.fileBytes model now f2.env = .threw m2 →
        batchLoop true model now [f1, f2, f3]
          = { outcomes := [.wrote d1, .threw m2, .wrote d3], completed := true })
    ∧ (∀ j2 pre2 em et fr2, (∀ p ∈ pre2, isProgressPoll p = true) →
        f2.env = ⟨.ok j2, pre2 ++ [.ok ⟨"error", em, et⟩], fr2⟩ →
        transcribeSingleFile true f2.inputFile f2.fileBytes model now f2.env
          = .wrote (createPartialResultFromError et em f2.inputFile f2.fileBytes model now))
    ∧ (∀ j2 pre2 s b, (∀ p ∈ pre2, isProgressPoll p = true) →
        f2.env = ⟨.ok j2, pre2 ++ [.ok ⟨"complete", none, none⟩], .httpErr s b⟩ →
        transcribeSingleFile true f2.inputFile f2.fileBytes model now f2.env
          = .wrote (createPartialResultFromHttpError s b f2.inputFile f2.fileBytes model now))
    ∧ (∀ j2 pre2, (∀ p ∈ pre2, isProgressPoll p = true) →
        f2.env = ⟨.ok j2, pre2 ++ [.ok ⟨"complete", none, none⟩], .accepted⟩ →
        transcribeSingleFile true f2.inputFile f2.fileBytes model now f2.env
          = .wrote (createPartialResultFromTimeout f2.inputFile f2.fileBytes model now))
    ∧ (∀ j2 pre2 msg, (∀ p ∈ pre2, isProgressPoll p = true) →
        f2.env = ⟨.ok j2, pre2 ++ [.ok ⟨"complete", none, none⟩], .exn msg⟩ →
        transcribeSingleFile true f2.inputFile f2.fileBytes model now f2.env
          = .wrote (createPartialResultFromException (some msg) f2.inputFile
              f2.fileBytes model now)) := by
  refine ⟨?_, ?_, ?_, ?_, ?_, ?_⟩
  · intro d2 h2
    simp only [batchLoop, h1, h2, h3]
  · intro m2 h2
    simp only [batchLoop, h1, h2, h3, if_true]
  · intro j2 pre2 em et fr2 hpre henv
    rw [henv]
    show (match pollLoop true f2.inputFile f2.fileBytes model now
        (pre2 ++ [.ok ⟨"error", em, et⟩]) with
      | .stillPolling => FileOutcome.stillPolling
      | .threw m => .threw m
      | .degraded d => .wrote d
      | .fetchNeeded =>
        match fetchPhase true f2.inputFile f2.fileBytes model now fr2 with
        | .error m => .threw m
        | .ok d => .wrote d) = _
    rw [pollLoop_append_progress true f2.inputFile f2.fileBytes model now pre2 _ hpre]
    rfl
  · intro j2 pre2 s b hpre henv
    rw [henv]
    show (match pollLoop true f2.inputFile f2.fileBytes model now
        (pre2 ++ [.ok ⟨"complete", none, none⟩]) with
      | .stillPolling => FileOutcome.stillPolling
      | .threw m => .threw m
      | .degraded d => .wrote d
      | .fetchNeeded =>
        match fetchPhase true f2.inputFile f2.fileBytes model now (.httpErr s b) with
        | .error m => .threw m
        | .ok d => .wrote d) = _
    rw [pollLoop_append_progress true f2.inputFile f2.fileBytes model now pre2 _ hpre]
    rfl
  · intro j2 pre2 hpre henv
    rw [henv]
    show (match pollLoop true f2.inputFile f2.fileBytes model now
        (pre2 ++ [.ok ⟨"complete", none, none⟩]) with
      | .stillPolling => FileOutcome.stillPolling
      | .threw m => .threw m
      | .degraded d => .wrote d
      | .fetchNeeded =>
        match fetchPhase true f2.inputFile f2.fileBytes model now .accepted with
        | .error m => .threw m
        | .ok d => .wrote d) = _
    rw [pollLoop_append_progress true f2.inputFile f2.fileBytes model now pre2 _ hpre]
    rfl
  · intro j2 pre2 msg hpre henv
    rw [henv]
    show (match pollLoop true f2.inputFile f2.fileBytes model now
        (pre2 ++ [.ok ⟨"complete", none, none⟩]) with
      | .stillPolling => FileOutcome.stillPolling
      | .threw m => .threw m
      | .degraded d => .wrote d
      | .fetchNeeded =>
        match fetchPhase true f2.inputFile f2.fileBytes model now (.exn msg) with
        | .error m => .threw m
        | .ok d => .wrote d) = _
    rw [pollLoop_append_progress true f2.inputFile f2.fileBytes model now pre2 _ hpre]
    rfl

/-- C7 witness: a 3-file batch whose middle file's job reports `error`
(continue-on-failure on) completes with the two fetched documents and the
synthesized job-error placeholder in the middle. -/
theorem batch_continue_on_failure_witness :
    batchLoop true "m" "t"
      [⟨"a.pdf", [1], ⟨.ok "j1", [.ok ⟨"complete", none, none⟩], .ok { id := some "d1" }⟩⟩,
       ⟨"b.pdf", [2], ⟨.ok "j2", [.ok ⟨"error", some "oops", some "job_failed"⟩], .accepted⟩⟩,
       ⟨"c.pdf", [3], ⟨.ok "j3", [.ok ⟨"complete", none, none⟩], .ok { id := some "d3" }⟩⟩]
      = { outcomes :=
            [.wrote { id := some "d1" },
             .wrote (createPartialResultFromError (some "job_failed") (some "oops")
               "b.pdf" [2] "m" "t"),
             .wrote { id := some "d3" }],
          completed := true } := by
  have h := batch_continue_on_failure "m" "t"
    ⟨"a.pdf", [1], ⟨.ok "j1", [.ok ⟨"complete", none, none⟩], .ok { id := some "d1" }⟩⟩
    ⟨"b.pdf", [2], ⟨.ok "j2", [.ok ⟨"error", some "oops", some "job_failed"⟩], .accepted⟩⟩
    ⟨"c.pdf", [3], ⟨.ok "j3", [.ok ⟨"complete", none, none⟩], .ok { id := some "d3" }⟩⟩
    { id := some "d1" } { id := some "d3" } rfl rfl
  exact h.1 _ (h.2.2.1 "j2" [] (some "oops") (some "job_failed") .accepted
    (fun p hp => absurd hp (List.not_mem_nil p)) rfl)

end Charm
